import Mathlib

/-!
# A verification model of the mempool websocket fan-out core

This file embeds, in Lean, the parts of
`src/backend/src/api/websocket-handler.ts` that the specification's claims
are about:

* the JSON value model and `JSON.stringify` (used for the shared snapshot map
  `socketData`, whose values are pre-serialized strings);
* `serializeResponse` and the `serializedInitData` blob, which zip maps of
  already-serialized fragments into a JSON-looking object without re-encoding;
* a character-level JSON syntax checker (`isValidJson`), used to state and
  settle the claims about syntactic validity of the emitted frames;
* `testAddress`, the address/script canonicalizer, with the three regexes of
  the source hand-translated into decidable predicates on character lists;
* the inbound message handler (`setupConnectionHandling`'s `message`
  callback) for frames carrying the keys `action`, `data`, `refresh-blocks`,
  `track-addresses` and `track-scriptpubkeys` (the branches for the other
  frame keys read only those keys, and leave the client, the shared snapshot
  and the response untouched when the keys are absent, as they are in every
  frame considered here);
* the outspend pre-computation and `track-tx` branch of
  `$handleMempoolChange`, and the `track-mempool-block` branch of
  `handleNewBlock`.

JavaScript semantics that the embedding takes care to preserve: property
assignment with value `undefined` still creates the key (modelled by
responses being lists of `String × Option String`, `none` standing for
`undefined`, which the serializer renders as the bare text `undefined`);
object insertion order is preserved, and overwriting a key keeps its
position; deleted keys disappear; `!s` on a string is true exactly for the
empty string; `x.length` on a string is its character count.
-/

namespace MempoolWs

/-! ## JSON values and `JSON.stringify` -/

/-- Abstract JSON values, standing for the JavaScript values collaborators
hand to the handler.  Numbers are integers: every number the claims touch is
an integer, and `JSON.stringify` prints those exactly as `Int.repr` does. -/
inductive Json where
  | null : Json
  | bool : Bool → Json
  | num : Int → Json
  | str : String → Json
  | arr : List Json → Json
  | obj : List (String × Json) → Json

/-- One hex digit, lowercase, for `\u00XX` escapes. -/
def hexDigit (n : Nat) : Char :=
  if n < 10 then Char.ofNat (48 + n) else Char.ofNat (87 + n)

/-- How `JSON.stringify` escapes one character inside a string literal. -/
def escapeChar (c : Char) : String :=
  if c = '"' then "\\\""
  else if c = '\\' then "\\\\"
  else if c = '\n' then "\\n"
  else if c = '\t' then "\\t"
  else if c = '\r' then "\\r"
  else if c.toNat < 0x20 then
    "\\u00" ++ String.singleton (hexDigit (c.toNat / 16)) ++ String.singleton (hexDigit (c.toNat % 16))
  else String.singleton c

/-- `JSON.stringify` on a string. -/
def quoteStr (s : String) : String :=
  "\"" ++ String.join (s.toList.map escapeChar) ++ "\""

/-- Comma-join a list of fragments, `JSON.stringify` style (no spaces). -/
def joinComma (l : List String) : String :=
  String.intercalate "," l

mutual

/-- `JSON.stringify` of a value.  Arrays and objects are printed without
whitespace, as `JSON.stringify` does with no spacing argument. -/
def Json.stringify : Json → String
  | .null => "null"
  | .bool true => "true"
  | .bool false => "false"
  | .num n => n.repr
  | .str s => quoteStr s
  | .arr xs => "[" ++ joinComma (stringifyElems xs) ++ "]"
  | .obj kvs => "\x7b" ++ joinComma (stringifyFields kvs) ++ "\x7d"

/-- The serialized elements of a JSON array. -/
def stringifyElems : List Json → List String
  | [] => []
  | j :: js => Json.stringify j :: stringifyElems js

/-- The serialized `"key":value` fields of a JSON object. -/
def stringifyFields : List (String × Json) → List String
  | [] => []
  | (k, v) :: kvs => (quoteStr k ++ ":" ++ Json.stringify v) :: stringifyFields kvs

end

/-! ## Ordered string maps (JavaScript objects with string values)

`socketData` is a plain JS object mapping field names to pre-serialized JSON
strings.  JS objects preserve insertion order for string keys; assigning to
an existing key keeps its position; `delete` removes the key. -/

/-- An insertion-ordered map with string keys.  The key list is kept
duplicate-free by the operations below. -/
abbrev StrMap := List (String × String)

/-- Key lookup (`obj[key]`, `undefined` ↦ `none`). -/
def StrMap.find (m : StrMap) (k : String) : Option String :=
  match m with
  | [] => none
  | kv :: rest => if kv.1 = k then some kv.2 else StrMap.find rest k

/-- Assignment `obj[key] = v`: overwrite in place, or append a new key. -/
def StrMap.set (m : StrMap) (k : String) (v : String) : StrMap :=
  match m with
  | [] => [(k, v)]
  | kv :: rest => if kv.1 = k then (k, v) :: rest else kv :: StrMap.set rest k v

/-- `delete obj[key]`. -/
def StrMap.del (m : StrMap) (k : String) : StrMap :=
  match m with
  | [] => []
  | kv :: rest => if kv.1 = k then rest else kv :: StrMap.del rest k

/-! ## Responses

The per-frame `response` object maps keys to values that are either strings
(already-serialized JSON) or `undefined`; assigning `undefined` still
creates the key.  `none` stands for `undefined`. -/

/-- The response object under construction: insertion-ordered, values are
serialized strings or `undefined`. -/
abbrev Resp := List (String × Option String)

/-- Assignment into the response object. -/
def Resp.set (r : Resp) (k : String) (v : Option String) : Resp :=
  match r with
  | [] => [(k, v)]
  | kv :: rest => if kv.1 = k then (k, v) :: rest else kv :: Resp.set rest k v

/-- The keys of the response object, in order. -/
def Resp.keys (r : Resp) : List String := r.map Prod.fst

/-- How the template literal renders a response value: strings verbatim,
`undefined` as the bare text `undefined`. -/
def renderVal : Option String → String
  | some s => s
  | none => "undefined"

/-- Comma-space join, matching `.join(', ')` in the source. -/
def joinCommaSp (l : List String) : String :=
  String.intercalate ", " l

/-- `serializeResponse` (websocket-handler.ts:1062): takes a dictionary of
JSON-serialized values and zips it together by emitting
`{` + comma-joined `"key": value` + `}`, never re-encoding a value. -/
def serializeResponse (response : Resp) : String :=
  "\x7b"
    ++ joinCommaSp (response.map fun kv => "\"" ++ kv.1 ++ "\": " ++ renderVal kv.2)
    ++ "\x7d"

/-! ## A JSON syntax checker

The claims about the Response Serializer say that certain emitted frames
are, or are not, syntactically valid JSON.  Validity is defined by a
character-level recursive-descent recognizer of the RFC 8259 grammar,
fuel-indexed for termination (one unit of fuel per recursive value /
element / member step, so `length + 1` fuel always suffices for a text that
parses at all).  Each parser consumes one production and returns the
remaining characters. -/

/-- JSON insignificant whitespace. -/
def isWsChar (c : Char) : Bool := c = ' ' || c = '\t' || c = '\n' || c = '\r'

/-- Skip whitespace. -/
def skipWs (cs : List Char) : List Char := cs.dropWhile isWsChar

/-- ASCII decimal digit `[0-9]` (code points 48–57). -/
def isDigitCh (c : Char) : Bool := 48 ≤ c.toNat && c.toNat ≤ 57

/-- ASCII hex digit `[a-fA-F0-9]`. -/
def isHexCh (c : Char) : Bool :=
  isDigitCh c || (97 ≤ c.toNat && c.toNat ≤ 102) || (65 ≤ c.toNat && c.toNat ≤ 70)

/-- Characters that could extend a JSON number to its right: a number
followed by one of these might parse further. -/
def numExt (c : Char) : Bool :=
  isDigitCh c || c = '.' || c = 'e' || c = 'E' || c = '+' || c = '-'

/-- The single-character string escapes of RFC 8259. -/
def simpleEsc (c : Char) : Bool :=
  c = '"' || c = '\\' || c = '/' || c = 'b' || c = 'f' || c = 'n' || c = 'r' || c = 't'

/-- Consume the body of a string literal, the opening quote already eaten. -/
def parseStringBody : List Char → Option (List Char)
  | [] => none
  | c :: cs =>
    if c = '"' then some cs
    else if c = '\\' then
      match cs with
      | [] => none
      | e :: cs1 =>
        if simpleEsc e then parseStringBody cs1
        else if e = 'u' then
          match cs1 with
          | h1 :: h2 :: h3 :: h4 :: cs2 =>
            if isHexCh h1 && isHexCh h2 && isHexCh h3 && isHexCh h4 then parseStringBody cs2
            else none
          | _ => none
        else none
    else if 0x20 ≤ c.toNat then parseStringBody cs else none

/-- Consume an exact sequence of characters. -/
def expectChars : List Char → List Char → Option (List Char)
  | cs, [] => some cs
  | [], _ :: _ => none
  | c :: cs, e :: es => if c = e then expectChars cs es else none

/-- Consume an optional fraction part `. 1*DIGIT`; on a malformed fraction
consume nothing (the caller's leftover then fails higher up). -/
def parseFracPart : List Char → List Char
  | [] => []
  | c :: cs =>
    if c = '.' then
      match cs with
      | d :: _ => if isDigitCh d then cs.dropWhile isDigitCh else c :: cs
      | [] => c :: cs
    else c :: cs

/-- Consume an optional exponent part `(e|E) [+|-] 1*DIGIT`; on a malformed
exponent consume nothing. -/
def parseExpPart : List Char → List Char
  | [] => []
  | c :: cs =>
    if c = 'e' || c = 'E' then
      let body := match cs with
        | s :: cs1 => if s = '+' || s = '-' then cs1 else s :: cs1
        | [] => []
      match body with
      | d :: _ => if isDigitCh d then body.dropWhile isDigitCh else c :: cs
      | [] => c :: cs
    else c :: cs

/-- Consume a JSON number (`-? int frac? exp?`, leading zeros barred). -/
def parseNumber (cs : List Char) : Option (List Char) :=
  let cs1 := match cs with
    | c :: cs0 => if c = '-' then cs0 else c :: cs0
    | [] => []
  match cs1 with
  | [] => none
  | c :: cs0 =>
    if c = '0' then some (parseExpPart (parseFracPart cs0))
    else if isDigitCh c then some (parseExpPart (parseFracPart (cs0.dropWhile isDigitCh)))
    else none

mutual

/-- Consume one JSON value. -/
def parseValue : Nat → List Char → Option (List Char)
  | 0, _ => none
  | _ + 1, [] => none
  | fuel + 1, c :: cs =>
    if c = 'n' then expectChars cs ['u', 'l', 'l']
    else if c = 't' then expectChars cs ['r', 'u', 'e']
    else if c = 'f' then expectChars cs ['a', 'l', 's', 'e']
    else if c = '"' then parseStringBody cs
    else if c = '[' then
      match skipWs cs with
      | [] => parseElems fuel []
      | d :: cs1 => if d = ']' then some cs1 else parseElems fuel (d :: cs1)
    else if c = '\x7b' then
      match skipWs cs with
      | [] => parseMembers fuel []
      | d :: cs1 => if d = '\x7d' then some cs1 else parseMembers fuel (d :: cs1)
    else parseNumber (c :: cs)

/-- Consume a non-empty comma-separated element list and the closing `]`. -/
def parseElems : Nat → List Char → Option (List Char)
  | 0, _ => none
  | fuel + 1, cs =>
    match parseValue fuel cs with
    | none => none
    | some rest =>
      match skipWs rest with
      | [] => none
      | d :: cs1 =>
        if d = ',' then parseElems fuel (skipWs cs1)
        else if d = ']' then some cs1
        else none

/-- Consume a non-empty comma-separated member list and the closing `}`. -/
def parseMembers : Nat → List Char → Option (List Char)
  | 0, _ => none
  | fuel + 1, cs =>
    match cs with
    | [] => none
    | c :: cs0 =>
      if c = '"' then
        match parseStringBody cs0 with
        | none => none
        | some rest =>
          match skipWs rest with
          | [] => none
          | d :: cs1 =>
            if d = ':' then
              match parseValue fuel (skipWs cs1) with
              | none => none
              | some rest2 =>
                match skipWs rest2 with
                | [] => none
                | e :: cs2 =>
                  if e = ',' then parseMembers fuel (skipWs cs2)
                  else if e = '\x7d' then some cs2
                  else none
            else none
      else none

end

/-- A string is syntactically valid JSON when one value, possibly surrounded
by whitespace, spans it exactly. -/
def isValidJson (s : String) : Bool :=
  match parseValue (s.length + 1) (skipWs s.toList) with
  | some rest => (skipWs rest).isEmpty
  | none => false

/-! ## The address/script canonicalizer `testAddress`

`testAddress` (websocket-handler.ts:1073) tests its argument against one
big anchored alternation, lowercases it when a second (only partially
anchored) alternation matches, rewrites public keys into P2PK scripts, and
otherwise returns the input; on no match it returns `false` (here `none`).

Each regex is hand-translated into a decidable predicate on the character
list.  A `∃`-split over the possible `hrp` lengths 2–5 renders the
backtracking semantics of `[a-z]{2,5}1[...]{8,100}` exactly. -/

/-- `[a-z]` (97–122). -/
def isLowerAlpha (c : Char) : Bool := 97 ≤ c.toNat && c.toNat ≤ 122

/-- `[A-Z]` (65–90). -/
def isUpperAlpha (c : Char) : Bool := 65 ≤ c.toNat && c.toNat ≤ 90

/-- The base58 alphabet `[a-km-zA-HJ-NP-Z1-9]`:
`a`–`k` (97–107), `m`–`z` (109–122), `A`–`H` (65–72), `J`–`N` (74–78),
`P`–`Z` (80–90), `1`–`9` (49–57). -/
def isBase58Char (c : Char) : Bool :=
  ((97 ≤ c.toNat && c.toNat ≤ 107) || (109 ≤ c.toNat && c.toNat ≤ 122))
  || ((65 ≤ c.toNat && c.toNat ≤ 72) || (74 ≤ c.toNat && c.toNat ≤ 78)
      || (80 ≤ c.toNat && c.toNat ≤ 90))
  || (49 ≤ c.toNat && c.toNat ≤ 57)

/-- The lowercase bech32 data alphabet `[ac-hj-np-z02-9]`:
`a` (97), `c`–`h` (99–104), `j`–`n` (106–110), `p`–`z` (112–122), `0` (48),
`2`–`9` (50–57). -/
def isBech32DataLower (c : Char) : Bool :=
  c.toNat = 97 || (99 ≤ c.toNat && c.toNat ≤ 104) || (106 ≤ c.toNat && c.toNat ≤ 110)
  || (112 ≤ c.toNat && c.toNat ≤ 122) || c.toNat = 48 || (50 ≤ c.toNat && c.toNat ≤ 57)

/-- The uppercase bech32 data alphabet `[AC-HJ-NP-Z02-9]`:
`A` (65), `C`–`H` (67–72), `J`–`N` (74–78), `P`–`Z` (80–90), `0` (48),
`2`–`9` (50–57). -/
def isBech32DataUpper (c : Char) : Bool :=
  c.toNat = 65 || (67 ≤ c.toNat && c.toNat ≤ 72) || (74 ≤ c.toNat && c.toNat ≤ 78)
  || (80 ≤ c.toNat && c.toNat ≤ 90) || c.toNat = 48 || (50 ≤ c.toNat && c.toNat ≤ 57)

/-- `^[a-km-zA-HJ-NP-Z1-9]{26,35}$`. -/
def isBase58Short (cs : List Char) : Bool :=
  cs.all isBase58Char && decide (26 ≤ cs.length) && decide (cs.length ≤ 35)

/-- `^[a-km-zA-HJ-NP-Z1-9]{80}$`. -/
def isBase58Long (cs : List Char) : Bool :=
  cs.all isBase58Char && decide (cs.length = 80)

/-- Whole-string match of `[a-z]{2,5}1[ac-hj-np-z02-9]{8,100}` with `hrp`
length `k`. -/
def bech32LowerAt (cs : List Char) (k : Nat) : Bool :=
  decide ((cs.take k).length = k) && (cs.take k).all isLowerAlpha &&
  (match cs.drop k with
   | c :: data =>
     c = '1' && data.all isBech32DataLower
       && decide (8 ≤ data.length) && decide (data.length ≤ 100)
   | [] => false)

/-- `^[a-z]{2,5}1[ac-hj-np-z02-9]{8,100}$`. -/
def isBech32Lower (cs : List Char) : Bool :=
  [2, 3, 4, 5].any (bech32LowerAt cs)

/-- Whole-string match of `[A-Z]{2,5}1[AC-HJ-NP-Z02-9]{8,100}` with `hrp`
length `k`. -/
def bech32UpperAt (cs : List Char) (k : Nat) : Bool :=
  decide ((cs.take k).length = k) && (cs.take k).all isUpperAlpha &&
  (match cs.drop k with
   | c :: data =>
     c = '1' && data.all isBech32DataUpper
       && decide (8 ≤ data.length) && decide (data.length ≤ 100)
   | [] => false)

/-- `^[A-Z]{2,5}1[AC-HJ-NP-Z02-9]{8,100}$`. -/
def isBech32Upper (cs : List Char) : Bool :=
  [2, 3, 4, 5].any (bech32UpperAt cs)

/-- `^04[a-fA-F0-9]{128}$`. -/
def isUncompressedKey (cs : List Char) : Bool :=
  match cs with
  | c0 :: c1 :: rest =>
    c0 = '0' && c1 = '4' && decide (rest.length = 128) && rest.all isHexCh
  | _ => false

/-- `^(02|03)[a-fA-F0-9]{64}$`. -/
def isCompressedKey (cs : List Char) : Bool :=
  match cs with
  | c0 :: c1 :: rest =>
    c0 = '0' && (c1 = '2' || c1 = '3') && decide (rest.length = 64) && rest.all isHexCh
  | _ => false

/-- A match of `04[a-fA-F0-9]{128}` starting at the head of the list (no
end anchor). -/
def uncompressedAtHead (cs : List Char) : Bool :=
  match cs with
  | c0 :: c1 :: rest =>
    c0 = '0' && c1 = '4' && decide ((rest.take 128).length = 128) && (rest.take 128).all isHexCh
  | _ => false

/-- The unanchored alternative `04[a-fA-F0-9]{128}`: a match anywhere. -/
def containsUncompressed : List Char → Bool
  | [] => false
  | c :: cs => uncompressedAtHead (c :: cs) || containsUncompressed cs

/-- The end-anchored alternative `(02|03)[a-fA-F0-9]{64}$`: the last 66
characters form a compressed key. -/
def endsCompressed (cs : List Char) : Bool :=
  decide (66 ≤ cs.length) && isCompressedKey (cs.drop (cs.length - 66))

/-- Prefix match of `^[A-Z]{2,5}1[AC-HJ-NP-Z02-9]{8,100}` with `hrp`
length `k`: at least 8 data characters after the `1` suffice, since the
alternative carries no end anchor. -/
def prefixUpperBech32At (cs : List Char) (k : Nat) : Bool :=
  decide ((cs.take k).length = k) && (cs.take k).all isUpperAlpha &&
  (match cs.drop k with
   | c :: rest => c = '1' && decide (8 ≤ (rest.takeWhile isBech32DataUpper).length)
   | [] => false)

/-- The start-anchored alternative `^[A-Z]{2,5}1[AC-HJ-NP-Z02-9]{8,100}`. -/
def prefixUpperBech32 (cs : List Char) : Bool :=
  [2, 3, 4, 5].any (prefixUpperBech32At cs)

/-- The classifier regex of `testAddress` (fully anchored alternation). -/
def matchesAddrRegex (cs : List Char) : Bool :=
  isBase58Short cs || isBase58Long cs || isBech32Lower cs || isBech32Upper cs
    || isUncompressedKey cs || isCompressedKey cs

/-- The second regex of `testAddress`,
`/^[A-Z]{2,5}1[AC-HJ-NP-Z02-9]{8,100}|04[a-fA-F0-9]{128}|(02|03)[a-fA-F0-9]{64}$/`:
only the first alternative is anchored at the start and only the last at
the end, so this is a prefix match, a substring match, and a suffix
match respectively. -/
def matchesLowercaseRegex (cs : List Char) : Bool :=
  prefixUpperBech32 cs || containsUncompressed cs || endsCompressed cs

/-- ASCII lowercasing of one character, as `toLowerCase` acts on the ASCII
strings that can reach it here (every candidate has matched the all-ASCII
classifier regex). -/
def lowerChar (c : Char) : Char :=
  if 65 ≤ c.toNat && c.toNat ≤ 90 then Char.ofNat (c.toNat + 32) else c

/-- `address.toLowerCase()` on an ASCII string. -/
def toLowerStr (s : String) : String := String.mk (s.data.map lowerChar)

/-- `testAddress` (websocket-handler.ts:1073): canonicalize an address, or
reject it (`none` for the source's `false`). -/
def testAddress (address : String) : Option String :=
  if matchesAddrRegex address.toList then
    let address := if matchesLowercaseRegex address.toList then toLowerStr address else address
    if isUncompressedKey address.toList then some ("41" ++ address ++ "ac")
    else if isCompressedKey address.toList then some ("21" ++ address ++ "ac")
    else some address
  else none

/-! ## Configuration, collaborators, sessions, frames -/

/-- The configuration values the modelled paths read. -/
structure Config where
  maxTrackedAddresses : Nat
  initialBlocksAmount : Nat
deriving DecidableEq

/-- The collaborator state visible to the modelled paths: what
`blocks.getBlocks()`, `memPool.getMempoolInfo()` and friends return when
the handler calls them.  `da` is `some` exactly when
`difficultyAdjustment.getDifficultyAdjustment()?.previousTime` is truthy
(otherwise `updateSocketData` stores `undefined`, deleting the key). -/
structure Env where
  blocksList : List Json
  mempoolInfo : Json
  vBytesPerSecond : Json
  conversions : Json
  mempoolBlocksVal : Json
  transactions : Json
  backendInfo : Json
  loadingIndicators : Json
  fees : Json
  healthStatus : Json
  da : Option Json

/-- Per-connection session state: the ad-hoc properties the source stores
on the socket object.  `none` stands for both an unset property and an
explicit `null`: every modelled read treats the two alike. -/
structure ClientState where
  wantBlocks : Bool
  wantMempoolBlocks : Bool
  wantLive2hChart : Bool
  wantStats : Bool
  wantTomahawk : Bool
  wants : Bool
  trackTx : Option String
  trackMempoolTx : Option String
  trackAddress : Option String
  trackAddresses : Option (List (String × String))
  trackScriptpubkeys : Option (List String)
  trackAsset : Option String
  trackMempoolBlock : Option Nat
  trackRbf : Option String
  trackRbfSummary : Bool
  trackDonation : Option String
  trackBisqMarket : Option String
deriving DecidableEq

/-- A session with nothing set, as on a fresh connection. -/
def freshClient : ClientState :=
  ⟨false, false, false, false, false, false,
   none, none, none, none, none, none, none, none, false, none, none⟩

/-- An inbound frame carrying (a subset of) the keys `action`, `data`,
`refresh-blocks`, `track-addresses` and `track-scriptpubkeys`.  The
handler's branches for the remaining recognized keys only read those keys,
so for the frames modelled here they change nothing and send nothing. -/
structure Frame where
  action : Option String
  data : Option (List String)
  refreshBlocks : Bool
  trackAddresses : Option (List String)
  trackScriptpubkeys : Option (List String)
deriving DecidableEq

/-- A `{"action":"want","data":[...]}` frame. -/
def wantFrame (d : List String) : Frame := ⟨some "want", some d, false, none, none⟩

/-- A `{"action":"init"}` frame. -/
def initFrame : Frame := ⟨some "init", none, false, none, none⟩

/-- A `{"track-addresses":[...]}` frame. -/
def addressesFrame (entries : List String) : Frame := ⟨none, none, false, some entries, none⟩

/-- A `{"track-scriptpubkeys":[...]}` frame. -/
def scriptpubkeysFrame (entries : List String) : Frame := ⟨none, none, false, none, some entries⟩

/-! ## The shared snapshot (`socketData` / `serializedInitData`) -/

/-- `updateSocketDataFields` (websocket-handler.ts:69): store
`JSON.stringify` of each non-null field, delete null/undefined ones.  The
derived `serializedInitData` is recomputed by `serializeInitData` below;
since every mutation of `socketData` goes through this function, reading
the stored blob and recomputing it agree. -/
def updateSocketDataFields (sd : StrMap) (fields : List (String × Option Json)) : StrMap :=
  fields.foldl
    (fun m kv =>
      match kv.2 with
      | some j => StrMap.set m kv.1 j.stringify
      | none => StrMap.del m kv.1)
    sd

/-- The `serializedInitData` blob derived from `socketData`
(websocket-handler.ts:77): same zipping as `serializeResponse`. -/
def serializeInitData (sd : StrMap) : String :=
  "\x7b"
    ++ joinCommaSp (sd.map fun kv => "\"" ++ kv.1 ++ "\": " ++ kv.2)
    ++ "\x7d"

/-- `Array.prototype.slice(-n)`: the last `n` elements, except that
`slice(-0)` is `slice(0)`, the whole array. -/
def sliceNeg (n : Nat) (l : List Json) : List Json :=
  if n = 0 then l else l.drop (l.length - n)

/-- `updateSocketData` (websocket-handler.ts:82): refresh every snapshot
field from the collaborators. -/
def updateSocketData (cfg : Config) (env : Env) (sd : StrMap) : StrMap :=
  updateSocketDataFields sd
    [("mempoolInfo", some env.mempoolInfo),
     ("vBytesPerSecond", some env.vBytesPerSecond),
     ("blocks", some (Json.arr (sliceNeg cfg.initialBlocksAmount env.blocksList))),
     ("conversions", some env.conversions),
     ("mempool-blocks", some env.mempoolBlocksVal),
     ("transactions", some env.transactions),
     ("backendInfo", some env.backendInfo),
     ("loadingIndicators", some env.loadingIndicators),
     ("da", env.da),
     ("fees", some env.fees)]

/-! ## The inbound protocol decoder -/

/-- Which subscription classes this frame newly turned on. -/
structure WantNow where
  blocks : Bool
  mempoolBlocks : Bool
  live2h : Bool
  stats : Bool
  tomahawk : Bool
deriving DecidableEq

/-- No class newly turned on (frame without a recognized `want` action). -/
def noWantNow : WantNow := ⟨false, false, false, false, false⟩

/-- The `want` action (websocket-handler.ts:124): for each class in the
fixed `wantable` list, the flag becomes list membership; a class is *newly*
on when it is wanted now and its flag was off; `wants` is set. -/
def applyWant (c : ClientState) (msg : Frame) : ClientState × WantNow :=
  if msg.action = some "want" then
    match msg.data with
    | some d =>
      let wB := d.contains "blocks"
      let wM := d.contains "mempool-blocks"
      let wL := d.contains "live-2h-chart"
      let wS := d.contains "stats"
      let wT := d.contains "tomahawk"
      ({ c with
          wantBlocks := wB, wantMempoolBlocks := wM, wantLive2hChart := wL,
          wantStats := wS, wantTomahawk := wT, wants := true },
       ⟨wB && !c.wantBlocks, wM && !c.wantMempoolBlocks, wL && !c.wantLive2hChart,
        wS && !c.wantStats, wT && !c.wantTomahawk⟩)
    | none => (c, noWantNow)
  else (c, noWantNow)

/-- Initial-data seeding (websocket-handler.ts:137): newly-enabled classes
copy their snapshot fields into the response; a missing snapshot field is
copied as `undefined` and still creates the key. -/
def seedResponse (sd : StrMap) (env : Env) (wn : WantNow) (refreshBlocks : Bool) : Resp :=
  let r : Resp := []
  let r := if wn.blocks || refreshBlocks then Resp.set r "blocks" (StrMap.find sd "blocks") else r
  let r := if wn.mempoolBlocks then Resp.set r "mempool-blocks" (StrMap.find sd "mempool-blocks") else r
  let r := if wn.stats then
      let r := Resp.set r "mempoolInfo" (StrMap.find sd "mempoolInfo")
      let r := Resp.set r "vBytesPerSecond" (StrMap.find sd "vBytesPerSecond")
      let r := Resp.set r "fees" (StrMap.find sd "fees")
      Resp.set r "da" (StrMap.find sd "da")
    else r
  if wn.tomahawk then Resp.set r "tomahawk" (some (Json.stringify env.healthStatus)) else r

/-- The `addressMap` loop of the `track-addresses` branch
(websocket-handler.ts:222), iterating over the raw entries in order. -/
def buildAddressMapGo (m : List (String × String)) : List String → List (String × String)
  | [] => m
  | address :: rest =>
    buildAddressMapGo
      (match testAddress address with
       | some validAddress => StrMap.set m address validAddress
       | none => m)
      rest

/-- The `addressMap` of the `track-addresses` branch
(websocket-handler.ts:222): keep each raw entry that validates, keyed by
the raw entry, valued by its canonical form; later duplicates overwrite in
place. -/
def buildAddressMap (entries : List String) : List (String × String) :=
  buildAddressMapGo [] entries

/-- The error string of the `track-addresses` branch (quotes included: the
value is already-serialized JSON). -/
def tooManyAddressesMsg (cfg : Config) : String :=
  "\"too many addresses requested, this connection supports tracking a maximum of "
    ++ toString cfg.maxTrackedAddresses ++ " addresses\""

/-- The error string of the `track-scriptpubkeys` branch. -/
def tooManyScriptpubkeysMsg (cfg : Config) : String :=
  "\"too many scriptpubkeys requested, this connection supports tracking a maximum of "
    ++ toString cfg.maxTrackedAddresses ++ " scriptpubkeys\""

/-- The `track-addresses` branch (websocket-handler.ts:221). -/
def applyTrackAddresses (cfg : Config) (c : ClientState) (r : Resp) (msg : Frame) :
    ClientState × Resp :=
  match msg.trackAddresses with
  | some entries =>
    let addressMap := buildAddressMap entries
    if addressMap.length > cfg.maxTrackedAddresses then
      ({ c with trackAddresses := none },
       Resp.set r "track-addresses-error" (some (tooManyAddressesMsg cfg)))
    else if addressMap.length > 0 then ({ c with trackAddresses := some addressMap }, r)
    else ({ c with trackAddresses := none }, r)
  | none => (c, r)

/-- `/^[a-fA-F0-9]+$/`: a non-empty all-hex string. -/
def isHexString (s : String) : Bool :=
  s.toList.all isHexCh && !s.toList.isEmpty

/-- The `spks` loop of the `track-scriptpubkeys` branch
(websocket-handler.ts:240): push the lowercase form of each entry that is
non-empty hex; duplicates are kept. -/
def buildSpkList (entries : List String) : List String :=
  (entries.filter isHexString).map toLowerStr

/-- The `track-scriptpubkeys` branch (websocket-handler.ts:239). -/
def applyTrackScriptpubkeys (cfg : Config) (c : ClientState) (r : Resp) (msg : Frame) :
    ClientState × Resp :=
  match msg.trackScriptpubkeys with
  | some entries =>
    let spks := buildSpkList entries
    if spks.length > cfg.maxTrackedAddresses then
      ({ c with trackScriptpubkeys := none },
       Resp.set r "track-scriptpubkeys-error" (some (tooManyScriptpubkeysMsg cfg)))
    else if spks.length > 0 then ({ c with trackScriptpubkeys := some spks }, r)
    else ({ c with trackScriptpubkeys := none }, r)
  | none => (c, r)

/-- JavaScript `!x` for a possibly-missing string: true for a missing key
and for the empty string. -/
def jsFalsyStr : Option String → Bool
  | none => true
  | some s => s.isEmpty

/-- `!this.socketData['blocks']?.length`: true when the key is missing or
the *serialized string* is empty.  `JSON.stringify` of an empty block list
is the two-character string `[]`, for which this is false. -/
def blocksFieldFalsy (sd : StrMap) : Bool :=
  match StrMap.find sd "blocks" with
  | none => true
  | some s => s.length = 0

/-- The refresh condition of the `init` action (websocket-handler.ts:299). -/
def initNeedsRefresh (sd : StrMap) : Bool :=
  blocksFieldFalsy sd || jsFalsyStr (StrMap.find sd "da")
    || jsFalsyStr (StrMap.find sd "backendInfo") || jsFalsyStr (StrMap.find sd "conversions")

/-- The `init` action (websocket-handler.ts:298): possibly refresh the
snapshot; then either return early (sending nothing at all, discarding the
response built so far) or send the init blob verbatim.  Yields the new
snapshot, the blob to send if any, and whether the handler returned
early. -/
def applyInit (cfg : Config) (env : Env) (sd : StrMap) (msg : Frame) :
    StrMap × Option String × Bool :=
  if msg.action = some "init" then
    let sd1 := if initNeedsRefresh sd then updateSocketData cfg env sd else sd
    if blocksFieldFalsy sd1 then (sd1, none, true)
    else (sd1, some (serializeInitData sd1), false)
  else (sd, none, false)

/-- The `ping` action (websocket-handler.ts:308). -/
def applyPing (r : Resp) (msg : Frame) : Resp :=
  if msg.action = some "ping" then Resp.set r "pong" (some "true") else r

/-- What one processed frame leaves behind: the mutated session, the
mutated shared snapshot, the response object that was built, and the texts
sent on the socket, in order. -/
structure HandlerResult where
  client : ClientState
  socketData : StrMap
  response : Resp
  sends : List String
deriving DecidableEq

/-- The message handler of `setupConnectionHandling`
(websocket-handler.ts:118), for frames of the shape `Frame`: process the
branches in source order, send the init blob immediately inside the `init`
branch (or return early from the whole handler when the blocks gate
fails), and finally send the serialized response if any key was set. -/
def handleMessage (cfg : Config) (env : Env) (sd : StrMap) (c : ClientState) (msg : Frame) :
    HandlerResult :=
  let cw := applyWant c msg
  let r1 := seedResponse sd env cw.2 msg.refreshBlocks
  let car := applyTrackAddresses cfg cw.1 r1 msg
  let csr := applyTrackScriptpubkeys cfg car.1 car.2 msg
  let ini := applyInit cfg env sd msg
  if ini.2.2 then
    { client := csr.1, socketData := ini.1, response := csr.2, sends := [] }
  else
    let r4 := applyPing csr.2 msg
    let sends :=
      (match ini.2.1 with
       | some blob => [blob]
       | none => []) ++ (if r4.isEmpty then [] else [serializeResponse r4])
    { client := csr.1, socketData := ini.1, response := r4, sends := sends }

/-! ## New-block fan-out: the `track-mempool-block` branch

`handleNewBlock` (websocket-handler.ts:1034) sends each tracker of a
projected block either the delta or the compressed full list, depending on
how large the delta's `added` side is relative to the block. -/

/-- A `mempool-block-deltas` entry: the difference between the old and new
projected block at one index. -/
structure PBlockDelta where
  added : List Json
  removed : List Json
  changed : List Json

/-- The delta as the JSON value `JSON.stringify` receives. -/
def PBlockDelta.toJson (d : PBlockDelta) : Json :=
  .obj [("added", .arr d.added), ("removed", .arr d.removed), ("changed", .arr d.changed)]

/-- A projected (mempool) block with its transaction list. -/
structure ProjectedBlock where
  transactions : List Json

/-- JavaScript `arr[i]` on an array of possibly-missing entries. -/
def jsIndex (l : List (Option α)) (i : Nat) : Option α := (l.get? i).join

/-- The `track-mempool-block` branch of `handleNewBlock`
(websocket-handler.ts:1034): when the tracked index is set and the mempool
engine is in sync, and both a delta and a projected block with a non-empty
transaction list exist at that index, emit `projected-block-transactions`:
the compressed full list when `delta.added.length >
transactions.length / 2` (equivalently `2 * |added| > |transactions|`:
both sides are integers), else the delta.  The serialized value is
computed through the per-event cache, whose keys
`projected-block-transactions-*` never collide with snapshot keys, so it
equals a fresh `JSON.stringify`. -/
def newBlockProjectedBranch (inSync : Bool) (mBlockDeltas : List (Option PBlockDelta))
    (mBlocksWithTransactions : List (Option ProjectedBlock)) (compressTx : Json → Json)
    (trackMempoolBlock : Option Nat) : Option (String × String) :=
  match trackMempoolBlock with
  | none => none
  | some index =>
    if inSync then
      match jsIndex mBlockDeltas index, jsIndex mBlocksWithTransactions index with
      | some delta, some pblock =>
        if pblock.transactions.length ≠ 0 then
          if 2 * delta.added.length > pblock.transactions.length then
            some ("projected-block-transactions",
              (Json.obj [("index", .num index),
                         ("blockTransactions", .arr (pblock.transactions.map compressTx))]).stringify)
          else
            some ("projected-block-transactions",
              (Json.obj [("index", .num index), ("delta", delta.toJson)]).stringify)
        else none
      | _, _ => none
    else none

/-! ## Mempool-delta fan-out: the outspend index and `utxoSpent`

`$handleMempoolChange` (websocket-handler.ts:508) first collects every
txid any client tracks, then walks the added transactions' inputs and
records, per tracked source txid and spent output index, the spender's
input index and txid; later writes overwrite earlier ones.  The `track-tx`
branch (websocket-handler.ts:663) then serializes a client's slice of that
index as `utxoSpent`. -/

/-- One transaction input: the output it spends. -/
structure TxVin where
  txid : String
  vout : Nat
deriving DecidableEq

/-- A newly-added mempool transaction: its id and inputs. -/
structure NewTx where
  txid : String
  vin : List TxVin
deriving DecidableEq

/-- An outspend record: which input (`vin`) of which transaction spends the
output. -/
structure OutEntry where
  vin : Nat
  txid : String
deriving DecidableEq

/-- The per-source-transaction map `{voutIdx: {vin, txid}}`. -/
abbrev InnerOutMap := List (Nat × OutEntry)

/-- The outspend index `{srcTxid: {voutIdx: {vin, txid}}}`. -/
abbrev OutMap := List (String × InnerOutMap)

/-- Assignment into the inner map (overwrite in place or append). -/
def innerSet (m : InnerOutMap) (k : Nat) (v : OutEntry) : InnerOutMap :=
  match m with
  | [] => [(k, v)]
  | kv :: rest => if kv.1 = k then (k, v) :: rest else kv :: innerSet rest k v

/-- Lookup in the inner map. -/
def innerFind (m : InnerOutMap) (k : Nat) : Option OutEntry :=
  match m with
  | [] => none
  | kv :: rest => if kv.1 = k then some kv.2 else innerFind rest k

/-- Lookup in the outer map. -/
def outerFind (m : OutMap) (k : String) : Option InnerOutMap :=
  match m with
  | [] => none
  | kv :: rest => if kv.1 = k then some kv.2 else outerFind rest k

/-- `outspendCache[vin.txid]` create-or-update
(websocket-handler.ts:520). -/
def setOutspend (m : OutMap) (src : String) (vout : Nat) (e : OutEntry) : OutMap :=
  match m with
  | [] => [(src, [(vout, e)])]
  | kv :: rest =>
    if kv.1 = src then (src, innerSet kv.2 vout e) :: rest
    else kv :: setOutspend rest src vout e

/-- The inner loop over `tx.vin` with its index `i`
(websocket-handler.ts:517). -/
def addVinSpends (trackedTxs : List String) (spenderTxid : String) :
    OutMap → List TxVin → Nat → OutMap
  | m, [], _ => m
  | m, v :: rest, i =>
    addVinSpends trackedTxs spenderTxid
      (if trackedTxs.contains v.txid then setOutspend m v.txid v.vout ⟨i, spenderTxid⟩ else m)
      rest (i + 1)

/-- Every txid some client tracks via `track-tx` (the `trackedTxs` set;
a list with the same membership). -/
def collectTrackedTxs (clients : List ClientState) : List String :=
  clients.filterMap ClientState.trackTx

/-- The outspend pre-computation (websocket-handler.ts:508–528). -/
def buildOutspendCache (trackedTxs : List String) (newTransactions : List NewTx) : OutMap :=
  if trackedTxs.isEmpty then []
  else newTransactions.foldl (fun m tx => addVinSpends trackedTxs tx.txid m tx.vin 0) []

/-- Insert into an inner map sorted by ascending output index. -/
def insertByKey (p : Nat × OutEntry) : InnerOutMap → InnerOutMap
  | [] => [p]
  | q :: rest => if p.1 < q.1 then p :: q :: rest else q :: insertByKey p rest

/-- Sort an inner map by ascending output index: JavaScript enumerates
integer-like object keys in ascending numeric order, so `JSON.stringify`
prints them sorted regardless of insertion order. -/
def sortByKey (m : InnerOutMap) : InnerOutMap := m.foldr insertByKey []

/-- `JSON.stringify(outspends)`: the object `{"v": {"vin": i, "txid": t}}`
with ascending numeric keys. -/
def stringifyOutspends (m : InnerOutMap) : String :=
  (Json.obj ((sortByKey m).map fun p =>
    (toString p.1, Json.obj [("vin", .num p.2.vin), ("txid", .str p.2.txid)]))).stringify

/-- The `utxoSpent` part of the `track-tx` branch of `$handleMempoolChange`
(websocket-handler.ts:663–669): serialize the tracked transaction's slice
of the outspend index when it is non-empty. -/
def utxoSpentResponse (outspendCache : OutMap) (c : ClientState) : Option String :=
  match c.trackTx with
  | none => none
  | some trackTxid =>
    match outerFind outspendCache trackTxid with
    | none => none
    | some outspends => if outspends.length ≠ 0 then some (stringifyOutspends outspends) else none

/-! ## Support definitions for the statements and proofs -/

/-- A key that can sit between quotes in a JSON object without escaping:
no quote, no backslash, no control character. -/
def safeKey (s : String) : Bool :=
  s.toList.all fun c => !(c = '"') && !(c = '\\') && decide (0x20 ≤ c.toNat)

/-- One `"key": value` fragment of `serializeResponse`. -/
def pairText (kv : String × String) : String :=
  "\"" ++ kv.1 ++ "\": " ++ kv.2

/-- A list whose head, if any, cannot extend a JSON number. -/
def noExtHead (ys : List Char) : Prop :=
  match ys with
  | [] => True
  | c :: _ => numExt c = false

/-- The leftover of a parse step composes with an appended tail when
either the parse consumed everything and the tail cannot extend a number,
or the parse stopped at a character that cannot extend a number. -/
def restOk (rest ys : List Char) : Prop :=
  match rest with
  | [] => noExtHead ys
  | c :: _ => numExt c = false

/-- The session-wide tracking bound: every stored plural tracking slot has
at most `MAX_TRACKED_ADDRESSES` entries. -/
def sessionBounded (cfg : Config) (c : ClientState) : Prop :=
  (∀ m, c.trackAddresses = some m → m.length ≤ cfg.maxTrackedAddresses) ∧
  (∀ l, c.trackScriptpubkeys = some l → l.length ≤ cfg.maxTrackedAddresses)

/-- The five want flags of a session agree with membership in a `want`
data list. -/
def wantFlagsMatch (c : ClientState) (d : List String) : Prop :=
  c.wantBlocks = d.contains "blocks" ∧
  c.wantMempoolBlocks = d.contains "mempool-blocks" ∧
  c.wantLive2hChart = d.contains "live-2h-chart" ∧
  c.wantStats = d.contains "stats" ∧
  c.wantTomahawk = d.contains "tomahawk"

/-- A concrete collaborator state with no block known and no difficulty
adjustment yet; the other collaborators return small numbers. -/
def envEmpty : Env :=
  ⟨[], .num 1, .num 2, .num 4, .num 5, .num 6, .num 7, .num 8, .num 9, .num 10, none⟩

/-- A 26-character legacy base58 string whose prefix also matches the
uppercase-bech32 alternative of the lowercasing regex. -/
def base58UpperPrefixEx : String := "AA1AAAAAAAAAAAAAAAAAAAAAAA"

/-- An uncompressed public key written in uppercase hex. -/
def upperUncompressedKey : String := "04" ++ String.mk (List.replicate 128 'A')

/-- An uncompressed public key in lowercase hex. -/
def lowerUncompressedKey : String := "04" ++ String.mk (List.replicate 128 'a')

/-- A session that wants `blocks` and nothing else. -/
def wantsBlocksClient : ClientState := { freshClient with wantBlocks := true }

/-- Combined lookup in the outspend index: the recorded spend of output
`v` of transaction `t`. -/
def outLookup (m : OutMap) (t : String) (v : Nat) : Option OutEntry :=
  match outerFind m t with
  | some im => innerFind im v
  | none => none

/-- Proof-side description of the inner loop: the index (counting from
`idx`) of the last input in `vins` spending output `v` of `t`. -/
def lastSpendIdx (t : String) (v : Nat) : List TxVin → Nat → Option Nat
  | [], _ => none
  | w :: rest, idx =>
    match lastSpendIdx t v rest (idx + 1) with
    | some j => some j
    | none => if w.txid = t ∧ w.vout = v then some idx else none

/-- Proof-side description of the outer loop: the entry recorded for
output `v` of `t` by the last spending transaction in `txs`. -/
def lastSpendInTxs (t : String) (v : Nat) : List NewTx → Option OutEntry
  | [] => none
  | tx :: rest =>
    match lastSpendInTxs t v rest with
    | some e => some e
    | none =>
      match lastSpendIdx t v tx.vin 0 with
      | some j => some ⟨j, tx.txid⟩
      | none => none

/-- A session tracking transaction "aa" via track-tx. -/
def c7client : ClientState := { freshClient with trackTx := some "aa" }

/-- A new mempool transaction "bb" whose single input spends output 0 of "aa". -/
def c7tx : NewTx := ⟨"bb", [⟨"aa", 0⟩]⟩

/-- The optionally-signed exponent body of `parseExpPart`, named for the
proofs. -/
def expBody : List Char → List Char
  | s :: cs1 => if s = '+' || s = '-' then cs1 else s :: cs1
  | [] => []

/-- The digits-and-tail step of `parseNumber` after the optional minus
sign, named for the proofs. -/
def numBody : List Char → Option (List Char)
  | [] => none
  | c :: cs0 =>
    if c = '0' then some (parseExpPart (parseFracPart cs0))
    else if isDigitCh c then
      some (parseExpPart (parseFracPart (cs0.dropWhile isDigitCh)))
    else none

/-- The character stream of the serialized member list, written with an
explicit continuation so every parser step sees its scrutinee. -/
def membersCharsT : List (String × String) → List Char → List Char
  | [], t => t
  | kv :: rest, t =>
    '"' :: (kv.1.data ++ '"' :: ':' :: ' ' :: (kv.2.data ++
      (match rest with
       | [] => t
       | _ :: _ => ',' :: ' ' :: membersCharsT rest t)))

/-- Fuel sufficient for `parseMembers` on a member list: each member costs
its value length plus two. -/
def membersFuel : List (String × String) → Nat
  | [] => 0
  | kv :: rest => kv.2.length + 2 + membersFuel rest

/-! # Theorems -/

/-! ## Character toolbox -/

theorem char_eq_of_toNat {c d : Char} (h : c.toNat = d.toNat) : c = d :=
  Char.ext (UInt32.ext h)

theorem charToNat_ofNat {n : Nat} (h : n < 55296) : (Char.ofNat n).toNat = n := by
  have hv : n.isValidChar := Or.inl h
  simp [Char.ofNat, dif_pos hv, Char.ofNatAux, Char.toNat, UInt32.toNat]

theorem lowerChar_toNat (c : Char) :
    (lowerChar c).toNat = if 65 ≤ c.toNat ∧ c.toNat ≤ 90 then c.toNat + 32 else c.toNat := by
  by_cases hc : 65 ≤ c.toNat ∧ c.toNat ≤ 90
  · rw [if_pos hc]
    unfold lowerChar
    rw [if_pos (by simp only [Bool.and_eq_true, decide_eq_true_iff]; exact hc)]
    exact charToNat_ofNat (by omega)
  · rw [if_neg hc]
    unfold lowerChar
    rw [if_neg (by simp only [Bool.and_eq_true, decide_eq_true_iff]; exact hc)]

theorem lowerChar_eq_self {c : Char} (h : ¬ (65 ≤ c.toNat ∧ c.toNat ≤ 90)) : lowerChar c = c := by
  unfold lowerChar
  rw [if_neg (by simp only [Bool.and_eq_true, decide_eq_true_iff]; exact h)]

theorem isLowerAlpha_iff {c : Char} : isLowerAlpha c = true ↔ 97 ≤ c.toNat ∧ c.toNat ≤ 122 := by
  simp [isLowerAlpha, Bool.and_eq_true, decide_eq_true_iff]

theorem isUpperAlpha_iff {c : Char} : isUpperAlpha c = true ↔ 65 ≤ c.toNat ∧ c.toNat ≤ 90 := by
  simp [isUpperAlpha, Bool.and_eq_true, decide_eq_true_iff]

theorem lower_of_upperAlpha {c : Char} (h : isUpperAlpha c = true) :
    isLowerAlpha (lowerChar c) = true := by
  rw [isUpperAlpha_iff] at h
  rw [isLowerAlpha_iff, lowerChar_toNat, if_pos h]
  omega

theorem isBech32DataUpper_iff {c : Char} :
    isBech32DataUpper c = true ↔
      c.toNat = 65 ∨ (67 ≤ c.toNat ∧ c.toNat ≤ 72) ∨ (74 ≤ c.toNat ∧ c.toNat ≤ 78)
        ∨ (80 ≤ c.toNat ∧ c.toNat ≤ 90) ∨ c.toNat = 48 ∨ (50 ≤ c.toNat ∧ c.toNat ≤ 57) := by
  simp [isBech32DataUpper, Bool.or_eq_true, Bool.and_eq_true, decide_eq_true_iff]
  tauto

theorem isBech32DataLower_iff {c : Char} :
    isBech32DataLower c = true ↔
      c.toNat = 97 ∨ (99 ≤ c.toNat ∧ c.toNat ≤ 104) ∨ (106 ≤ c.toNat ∧ c.toNat ≤ 110)
        ∨ (112 ≤ c.toNat ∧ c.toNat ≤ 122) ∨ c.toNat = 48 ∨ (50 ≤ c.toNat ∧ c.toNat ≤ 57) := by
  simp [isBech32DataLower, Bool.or_eq_true, Bool.and_eq_true, decide_eq_true_iff]
  tauto

theorem isHexCh_iff {c : Char} :
    isHexCh c = true ↔
      (48 ≤ c.toNat ∧ c.toNat ≤ 57) ∨ (97 ≤ c.toNat ∧ c.toNat ≤ 102)
        ∨ (65 ≤ c.toNat ∧ c.toNat ≤ 70) := by
  simp [isHexCh, isDigitCh, Bool.or_eq_true, Bool.and_eq_true, decide_eq_true_iff]
  tauto

theorem isBase58Char_iff {c : Char} :
    isBase58Char c = true ↔
      ((97 ≤ c.toNat ∧ c.toNat ≤ 107) ∨ (109 ≤ c.toNat ∧ c.toNat ≤ 122))
        ∨ ((65 ≤ c.toNat ∧ c.toNat ≤ 72) ∨ (74 ≤ c.toNat ∧ c.toNat ≤ 78)
            ∨ (80 ≤ c.toNat ∧ c.toNat ≤ 90))
        ∨ (49 ≤ c.toNat ∧ c.toNat ≤ 57) := by
  simp [isBase58Char, Bool.or_eq_true, Bool.and_eq_true, decide_eq_true_iff]
  tauto

theorem lower_of_b32dataUpper {c : Char} (h : isBech32DataUpper c = true) :
    isBech32DataLower (lowerChar c) = true := by
  rw [isBech32DataUpper_iff] at h
  rw [isBech32DataLower_iff, lowerChar_toNat]
  split <;> omega

theorem lower_of_hex {c : Char} (h : isHexCh c = true) : isHexCh (lowerChar c) = true := by
  rw [isHexCh_iff] at h
  rw [isHexCh_iff, lowerChar_toNat]
  split <;> omega

theorem lowerChar_fix_b32dataLower {c : Char} (h : isBech32DataLower c = true) :
    lowerChar c = c := by
  rw [isBech32DataLower_iff] at h
  exact lowerChar_eq_self (by omega)

theorem lowerChar_fix_lowerAlpha {c : Char} (h : isLowerAlpha c = true) : lowerChar c = c := by
  rw [isLowerAlpha_iff] at h
  exact lowerChar_eq_self (by omega)

theorem not_zero_of_lowerAlpha {c : Char} (h : isLowerAlpha c = true) : ¬ (c = '0') := by
  rw [isLowerAlpha_iff] at h
  intro hc
  subst hc
  have h0 : ('0').toNat = 48 := rfl
  omega

/-- Claim C1: the claim says an `init` frame received before any block is
known gets no reply, the send being gated on a non-empty `blocks` list.
The code gates on `!socketData['blocks']?.length`, the length of the
*serialized string*: with no block known the refresh stores the
two-character string `[]`, the gate never fires, and the handler sends the
init blob (with an empty `blocks` array) anyway.  Evaluating the handler at
that failing input: the collaborators know no block (`envEmpty.blocksList =
[]`), the snapshot starts empty, and the `init` frame is answered with the
full blob. -/
theorem claim_C1_init_gate_evaluation :
    envEmpty.blocksList = [] ∧
    (handleMessage ⟨1, 8⟩ envEmpty [] freshClient initFrame).sends =
      ["\x7b\"mempoolInfo\": 1, \"vBytesPerSecond\": 2, \"blocks\": [], \"conversions\": 4, \"mempool-blocks\": 5, \"transactions\": 6, \"backendInfo\": 7, \"loadingIndicators\": 8, \"fees\": 9\x7d"] ∧
    StrMap.find (handleMessage ⟨1, 8⟩ envEmpty [] freshClient initFrame).socketData "blocks" =
      some "[]" :=
  ⟨rfl, rfl, rfl⟩

/-- Claim C9: a client that newly enables `stats` while the snapshot holds
no `da` entry is sent a frame in which the key `da` carries the bare text
`undefined`, and that frame is not syntactically valid JSON.  The reachable
state exhibited is the initial one: empty snapshot, fresh client, first
frame `{"action":"want","data":["stats"]}`. -/
theorem claim_C9_undefined_da_frame :
    StrMap.find ([] : StrMap) "da" = none ∧
    freshClient.wantStats = false ∧
    (handleMessage ⟨1, 8⟩ envEmpty [] freshClient (wantFrame ["stats"])).sends =
      ["\x7b\"mempoolInfo\": undefined, \"vBytesPerSecond\": undefined, \"fees\": undefined, \"da\": undefined\x7d"] ∧
    ("\x7b\"mempoolInfo\": undefined, \"vBytesPerSecond\": undefined, \"fees\": undefined, \"da\": undefined\x7d"
      = "\x7b\"mempoolInfo\": undefined, \"vBytesPerSecond\": undefined, \"fees\": undefined, "
        ++ "\"da\": undefined" ++ "\x7d") ∧
    isValidJson "\x7b\"mempoolInfo\": undefined, \"vBytesPerSecond\": undefined, \"fees\": undefined, \"da\": undefined\x7d" = false :=
  ⟨rfl, rfl, rfl, rfl, rfl⟩

set_option maxRecDepth 40000 in
/-- Claim C2, counterexample: the claim predicts that a legacy base58
string is returned unchanged and that an uncompressed key `04‖k` becomes
`41‖k‖ac` with the key as given.  The 26-character base58 string
`AA1AAAAAAAAAAAAAAAAAAAAAAA` also matches the start-anchored uppercase
bech32 alternative of the (only partially anchored) lowercasing regex and
comes back lowercased, and an uppercase key is lowercased inside the
emitted script. -/
theorem claim_C2_counterexample :
    isBase58Short base58UpperPrefixEx.toList = true ∧
    testAddress base58UpperPrefixEx = some "aa1aaaaaaaaaaaaaaaaaaaaaaa" ∧
    "aa1aaaaaaaaaaaaaaaaaaaaaaa" ≠ base58UpperPrefixEx ∧
    testAddress upperUncompressedKey = some ("41" ++ lowerUncompressedKey ++ "ac") ∧
    "41" ++ lowerUncompressedKey ++ "ac" ≠ "41" ++ upperUncompressedKey ++ "ac" :=
  ⟨rfl, rfl, by decide, rfl, by decide⟩

set_option maxRecDepth 40000 in
/-- Claim C3, counterexample: the validator is not idempotent on its own
canonical output.  The uncompressed key `04‖a…a` canonicalizes to the P2PK
script `4104…ac`, which the validator itself rejects. -/
theorem claim_C3_counterexample :
    testAddress lowerUncompressedKey = some ("41" ++ lowerUncompressedKey ++ "ac") ∧
    testAddress ("41" ++ lowerUncompressedKey ++ "ac") = none :=
  ⟨rfl, rfl⟩

/-- Claim C4, counterexample: a `track-addresses` frame with more than
`MAX_TRACKED_ADDRESSES` entries is *not* always rejected: with the maximum
set to 1, a frame with two entries of which one fails validation is
accepted and stored, and no error is emitted — the comparison counts
distinct valid entries, not raw ones. -/
theorem claim_C4_counterexample :
    (handleMessage ⟨1, 8⟩ envEmpty [] freshClient
        (addressesFrame ["bc1qqqqqqqqqq", "x"])).client.trackAddresses =
      some [("bc1qqqqqqqqqq", "bc1qqqqqqqqqq")] ∧
    ((handleMessage ⟨1, 8⟩ envEmpty [] freshClient
        (addressesFrame ["bc1qqqqqqqqqq", "x"])).response).keys.contains
      "track-addresses-error" = false :=
  ⟨rfl, rfl⟩

/-- Claim C5, counterexample: `serializeResponse` is not valid JSON for
*every* non-empty map of valid JSON values: a key containing a double quote
breaks the object syntax even though its value `true` is valid JSON. -/
theorem claim_C5_counterexample :
    isValidJson "true" = true ∧
    serializeResponse [("\"", some "true")] = "\x7b\"\"\": true\x7d" ∧
    isValidJson "\x7b\"\"\": true\x7d" = false :=
  ⟨rfl, rfl, rfl⟩

/-- Claim C6, counterexample: a client tracking index 0 while the engine is
in sync and a delta exists at index 0 receives nothing when the projected
block at that index has an empty transaction list — the code also requires
`mBlocksWithTransactions[index]?.transactions?.length` to be non-zero,
which the claim omits. -/
theorem claim_C6_counterexample :
    (jsIndex [some (⟨[], [], []⟩ : PBlockDelta)] 0).isSome = true ∧
    newBlockProjectedBranch true [some ⟨[], [], []⟩] [some ⟨[]⟩] id (some 0) = none :=
  ⟨rfl, rfl⟩

/-- Claim C7, counterexample: when two newly-added transactions spend the
same tracked output, only the later one survives in the outspend index, so
the claimed entry for the earlier spender is absent.  Transaction `bb`
spends output 0 of tracked `aa` at input 0, yet the index maps that output
to `cc`. -/
theorem claim_C7_counterexample :
    (⟨"bb", [⟨"aa", 0⟩]⟩ : NewTx) ∈ [(⟨"bb", [⟨"aa", 0⟩]⟩ : NewTx), ⟨"cc", [⟨"aa", 0⟩]⟩] ∧
    (⟨"bb", [⟨"aa", 0⟩]⟩ : NewTx).vin.get? 0 = some ⟨"aa", 0⟩ ∧
    (outerFind (buildOutspendCache ["aa"] [⟨"bb", [⟨"aa", 0⟩]⟩, ⟨"cc", [⟨"aa", 0⟩]⟩]) "aa") =
      some [(0, ⟨0, "cc"⟩)] ∧
    (⟨0, "cc"⟩ : OutEntry) ≠ ⟨0, "bb"⟩ :=
  ⟨List.mem_cons_self _ _, rfl, rfl, by decide⟩

/-- Claim C8, counterexample: two `want` frames — one whose list includes a
class, then one whose list excludes it — do not in general return the
session to its prior state: a session that wanted `blocks` before the pair
`["stats"]`, `[]` ends with `want-blocks` off, since each `want` frame
overwrites *every* class flag with membership in its own list. -/
theorem claim_C8_counterexample :
    wantsBlocksClient.wantBlocks = true ∧
    (List.contains ["stats"] "stats") = true ∧
    (List.contains ([] : List String) "stats") = false ∧
    (handleMessage ⟨1, 8⟩ envEmpty []
        (handleMessage ⟨1, 8⟩ envEmpty [] wantsBlocksClient (wantFrame ["stats"])).client
        (wantFrame [])).client.wantBlocks = false ∧
    (handleMessage ⟨1, 8⟩ envEmpty []
        (handleMessage ⟨1, 8⟩ envEmpty [] wantsBlocksClient (wantFrame ["stats"])).client
        (wantFrame [])).client ≠ wantsBlocksClient :=
  ⟨rfl, rfl, rfl, rfl, by decide⟩


theorem takeWhile_eq_self_of_all {p : Char → Bool} :
    ∀ {l : List Char}, l.all p = true → l.takeWhile p = l
  | [], _ => rfl
  | c :: t, h => by
    rw [List.all_cons, Bool.and_eq_true] at h
    simp [List.takeWhile_cons, h.1, takeWhile_eq_self_of_all h.2]

/-- Unpack `bech32UpperAt`. -/
theorem bech32UpperAt_iff {cs : List Char} {k : Nat} :
    bech32UpperAt cs k = true ↔
      ∃ data, (cs.take k).length = k ∧ (cs.take k).all isUpperAlpha = true ∧
        cs.drop k = '1' :: data ∧ data.all isBech32DataUpper = true ∧
        8 ≤ data.length ∧ data.length ≤ 100 := by
  unfold bech32UpperAt
  cases hd : cs.drop k with
  | nil => simp [hd]
  | cons c data =>
    simp only [hd, Bool.and_eq_true, decide_eq_true_iff]
    constructor
    · rintro ⟨⟨h1, h2⟩, ⟨⟨hc, hall⟩, h8⟩, h100⟩
      exact ⟨data, h1, h2, by rw [hc], hall, h8, h100⟩
    · rintro ⟨data', h1, h2, h3, h4, h5, h6⟩
      injection h3 with hc hdata
      subst hdata
      exact ⟨⟨h1, h2⟩, ⟨⟨hc, h4⟩, h5⟩, h6⟩



theorem bech32LowerAt_iff {cs : List Char} {k : Nat} :
    bech32LowerAt cs k = true ↔
      ∃ data, (cs.take k).length = k ∧ (cs.take k).all isLowerAlpha = true ∧
        cs.drop k = '1' :: data ∧ data.all isBech32DataLower = true ∧
        8 ≤ data.length ∧ data.length ≤ 100 := by
  unfold bech32LowerAt
  cases hd : cs.drop k with
  | nil => simp [hd]
  | cons c data =>
    simp only [hd, Bool.and_eq_true, decide_eq_true_iff]
    constructor
    · rintro ⟨⟨h1, h2⟩, ⟨⟨hc, hall⟩, h8⟩, h100⟩
      exact ⟨data, h1, h2, by rw [hc], hall, h8, h100⟩
    · rintro ⟨data', h1, h2, h3, h4, h5, h6⟩
      injection h3 with hc hdata
      subst hdata
      exact ⟨⟨h1, h2⟩, ⟨⟨hc, h4⟩, h5⟩, h6⟩

theorem prefixUpperBech32At_iff {cs : List Char} {k : Nat} :
    prefixUpperBech32At cs k = true ↔
      ∃ rest, (cs.take k).length = k ∧ (cs.take k).all isUpperAlpha = true ∧
        cs.drop k = '1' :: rest ∧ 8 ≤ (rest.takeWhile isBech32DataUpper).length := by
  unfold prefixUpperBech32At
  cases hd : cs.drop k with
  | nil => simp [hd]
  | cons c rest =>
    simp only [hd, Bool.and_eq_true, decide_eq_true_iff]
    constructor
    · rintro ⟨⟨h1, h2⟩, hc, h8⟩
      exact ⟨rest, h1, h2, by rw [hc], h8⟩
    · rintro ⟨rest', h1, h2, h3, h4⟩
      injection h3 with hc hrest
      subst hrest
      exact ⟨⟨h1, h2⟩, hc, h4⟩

theorem isUncompressedKey_iff {cs : List Char} :
    isUncompressedKey cs = true ↔
      ∃ rest, cs = '0' :: '4' :: rest ∧ rest.length = 128 ∧ rest.all isHexCh = true := by
  unfold isUncompressedKey
  match cs with
  | [] => simp
  | [c] => simp
  | c0 :: c1 :: rest =>
    simp only [Bool.and_eq_true, decide_eq_true_iff]
    constructor
    · rintro ⟨⟨⟨h0, h1⟩, h2⟩, h3⟩
      exact ⟨rest, by rw [h0, h1], h2, h3⟩
    · rintro ⟨rest', heq, h2, h3⟩
      injection heq with a b
      injection b with b c
      subst a b c
      exact ⟨⟨⟨rfl, rfl⟩, h2⟩, h3⟩

theorem isCompressedKey_iff {cs : List Char} :
    isCompressedKey cs = true ↔
      ∃ c1 rest, cs = '0' :: c1 :: rest ∧ (c1 = '2' ∨ c1 = '3') ∧
        rest.length = 64 ∧ rest.all isHexCh = true := by
  unfold isCompressedKey
  match cs with
  | [] => simp
  | [c] => simp
  | c0 :: c1 :: rest =>
    simp only [Bool.and_eq_true, Bool.or_eq_true, decide_eq_true_iff]
    constructor
    · rintro ⟨⟨⟨h0, h1⟩, h2⟩, h3⟩
      exact ⟨c1, rest, by rw [h0], h1, h2, h3⟩
    · rintro ⟨c1', rest', heq, h1, h2, h3⟩
      injection heq with a b
      injection b with b c
      subst a b c
      exact ⟨⟨⟨rfl, h1⟩, h2⟩, h3⟩

theorem uncompressedAtHead_iff {cs : List Char} :
    uncompressedAtHead cs = true ↔
      ∃ rest, cs = '0' :: '4' :: rest ∧ (rest.take 128).length = 128 ∧
        (rest.take 128).all isHexCh = true := by
  unfold uncompressedAtHead
  match cs with
  | [] => simp
  | [c] => simp
  | c0 :: c1 :: rest =>
    simp only [Bool.and_eq_true, decide_eq_true_iff]
    constructor
    · rintro ⟨⟨⟨h0, h1⟩, h2⟩, h3⟩
      exact ⟨rest, by rw [h0, h1], h2, h3⟩
    · rintro ⟨rest', heq, h2, h3⟩
      injection heq with a b
      injection b with b c
      subst a b c
      exact ⟨⟨⟨rfl, rfl⟩, h2⟩, h3⟩



theorem isBech32Upper_exists {cs : List Char} :
    isBech32Upper cs = true ↔ ∃ k, k ∈ [2, 3, 4, 5] ∧ bech32UpperAt cs k = true := by
  simp [isBech32Upper, List.any_eq_true]

theorem isBech32Lower_exists {cs : List Char} :
    isBech32Lower cs = true ↔ ∃ k, k ∈ [2, 3, 4, 5] ∧ bech32LowerAt cs k = true := by
  simp [isBech32Lower, List.any_eq_true]

theorem prefixUpperBech32_exists {cs : List Char} :
    prefixUpperBech32 cs = true ↔ ∃ k, k ∈ [2, 3, 4, 5] ∧ prefixUpperBech32At cs k = true := by
  simp [prefixUpperBech32, List.any_eq_true]

/-- An uppercase bech32 whole-string match yields an uppercase-bech32 prefix
match: at least 8 data characters follow the separator. -/
theorem prefixUpper_of_b32u {cs : List Char} (h : isBech32Upper cs = true) :
    prefixUpperBech32 cs = true := by
  rw [isBech32Upper_exists] at h
  obtain ⟨k, hk, hat⟩ := h
  rw [bech32UpperAt_iff] at hat
  obtain ⟨data, h1, h2, h3, h4, h5, h6⟩ := hat
  rw [prefixUpperBech32_exists]
  refine ⟨k, hk, ?_⟩
  rw [prefixUpperBech32At_iff]
  exact ⟨data, h1, h2, h3, by rw [takeWhile_eq_self_of_all h4]; exact h5⟩

/-- A whole-string uncompressed-key match contains one at the head. -/
theorem contains_of_uncomp {cs : List Char} (h : isUncompressedKey cs = true) :
    containsUncompressed cs = true := by
  rw [isUncompressedKey_iff] at h
  obtain ⟨rest, heq, hlen, hall⟩ := h
  subst heq
  have hat : uncompressedAtHead ('0' :: '4' :: rest) = true := by
    rw [uncompressedAtHead_iff]
    refine ⟨rest, rfl, ?_, ?_⟩
    · rw [List.take_of_length_le (by omega)]
      exact hlen
    · rw [List.take_of_length_le (by omega)]
      exact hall
  unfold containsUncompressed
  simp [hat]

/-- A whole-string compressed-key match is 66 characters, so it matches the
end-anchored alternative. -/
theorem ends_of_comp {cs : List Char} (h : isCompressedKey cs = true) :
    endsCompressed cs = true := by
  have hlen : cs.length = 66 := by
    rw [isCompressedKey_iff] at h
    obtain ⟨c1, rest, heq, _, hlen, _⟩ := h
    subst heq
    simp [hlen]
  unfold endsCompressed
  rw [hlen]
  simp [h]

theorem len_of_uncomp {cs : List Char} (h : isUncompressedKey cs = true) : cs.length = 130 := by
  rw [isUncompressedKey_iff] at h
  obtain ⟨rest, heq, hlen, _⟩ := h
  subst heq
  simp [hlen]

theorem len_of_comp {cs : List Char} (h : isCompressedKey cs = true) : cs.length = 66 := by
  rw [isCompressedKey_iff] at h
  obtain ⟨c1, rest, heq, _, hlen, _⟩ := h
  subst heq
  simp [hlen]

theorem len_of_b32u {cs : List Char} (h : isBech32Upper cs = true) :
    11 ≤ cs.length ∧ cs.length ≤ 106 := by
  rw [isBech32Upper_exists] at h
  obtain ⟨k, hk, hat⟩ := h
  rw [bech32UpperAt_iff] at hat
  obtain ⟨data, h1, _, h3, _, h5, h6⟩ := hat
  have hk25 : 2 ≤ k ∧ k ≤ 5 := by
    simp at hk
    rcases hk with rfl | rfl | rfl | rfl <;> omega
  have := List.take_append_drop k cs
  have hlen : cs.length = (cs.take k).length + (cs.drop k).length := by
    conv_lhs => rw [← this]
    rw [List.length_append]
  rw [h3] at hlen
  simp at hlen
  omega

theorem len_of_b32l {cs : List Char} (h : isBech32Lower cs = true) :
    11 ≤ cs.length ∧ cs.length ≤ 106 := by
  rw [isBech32Lower_exists] at h
  obtain ⟨k, hk, hat⟩ := h
  rw [bech32LowerAt_iff] at hat
  obtain ⟨data, h1, _, h3, _, h5, h6⟩ := hat
  have hk25 : 2 ≤ k ∧ k ≤ 5 := by
    simp at hk
    rcases hk with rfl | rfl | rfl | rfl <;> omega
  have := List.take_append_drop k cs
  have hlen : cs.length = (cs.take k).length + (cs.drop k).length := by
    conv_lhs => rw [← this]
    rw [List.length_append]
  rw [h3] at hlen
  simp at hlen
  omega

/-- Any unanchored uncompressed-key match needs at least 130 characters. -/
theorem len_of_contains : ∀ {cs : List Char}, containsUncompressed cs = true → 130 ≤ cs.length
  | [], h => by simp [containsUncompressed] at h
  | c :: cs, h => by
    unfold containsUncompressed at h
    rw [Bool.or_eq_true] at h
    rcases h with h | h
    · rw [uncompressedAtHead_iff] at h
      obtain ⟨rest, heq, hlen, _⟩ := h
      have : 128 ≤ rest.length := by
        have := List.length_take 128 rest
        omega
      rw [heq]
      simp
      omega
    · have := len_of_contains h
      simp
      omega



/-- Base58 strings contain no `0`, so the end-anchored compressed-key
alternative cannot match them. -/
theorem no_ends_of_base58 {cs : List Char} (h : cs.all isBase58Char = true) :
    endsCompressed cs = false := by
  cases he : endsCompressed cs
  · rfl
  · exfalso
    unfold endsCompressed at he
    rw [Bool.and_eq_true] at he
    obtain ⟨-, hc⟩ := he
    rw [isCompressedKey_iff] at hc
    obtain ⟨c1, rest, heq, -, -, -⟩ := hc
    have hz : '0' ∈ cs := by
      have hsub : cs.drop (cs.length - 66) ⊆ cs := List.drop_subset _ cs
      apply hsub
      rw [heq]
      exact List.mem_cons_self _ _
    rw [List.all_eq_true] at h
    have := h _ hz
    rw [isBase58Char_iff] at this
    have h0 : ('0').toNat = 48 := rfl
    omega

/-- Base58 strings are at most 80 characters, so they cannot contain the
uncompressed-key alternative. -/
theorem no_contains_of_short {cs : List Char} (h : cs.length < 130) :
    containsUncompressed cs = false := by
  cases he : containsUncompressed cs
  · rfl
  · exact absurd (len_of_contains he) (by omega)

theorem no_uncomp_of_len {cs : List Char} (h : cs.length ≠ 130) :
    isUncompressedKey cs = false := by
  cases he : isUncompressedKey cs
  · rfl
  · exact absurd (len_of_uncomp he) h

theorem no_comp_of_len {cs : List Char} (h : cs.length ≠ 66) :
    isCompressedKey cs = false := by
  cases he : isCompressedKey cs
  · rfl
  · exact absurd (len_of_comp he) h

theorem no_comp_of_head_lower {c : Char} {t : List Char} (h : isLowerAlpha c = true) :
    isCompressedKey (c :: t) = false := by
  cases he : isCompressedKey (c :: t)
  · rfl
  · exfalso
    rw [isCompressedKey_iff] at he
    obtain ⟨c1, rest, heq, -, -, -⟩ := he
    injection heq with a b
    rw [isLowerAlpha_iff] at h
    rw [a] at h
    have h0 : ('0').toNat = 48 := rfl
    omega

theorem no_uncomp_of_head_lower {c : Char} {t : List Char} (h : isLowerAlpha c = true) :
    isUncompressedKey (c :: t) = false := by
  cases he : isUncompressedKey (c :: t)
  · rfl
  · exfalso
    rw [isUncompressedKey_iff] at he
    obtain ⟨rest, heq, -, -⟩ := he
    injection heq with a b
    rw [isLowerAlpha_iff] at h
    rw [a] at h
    have h0 : ('0').toNat = 48 := rfl
    omega

/-- The head of an uppercase bech32 match is an uppercase letter. -/
theorem head_of_b32u {cs : List Char} (h : isBech32Upper cs = true) :
    ∃ c t, cs = c :: t ∧ isUpperAlpha c = true := by
  rw [isBech32Upper_exists] at h
  obtain ⟨k, hk, hat⟩ := h
  rw [bech32UpperAt_iff] at hat
  obtain ⟨data, h1, h2, -, -, -, -⟩ := hat
  have hk2 : 2 ≤ k := by
    simp at hk
    rcases hk with rfl | rfl | rfl | rfl <;> omega
  cases cs with
  | nil => simp at h1; omega
  | cons c t =>
    refine ⟨c, t, rfl, ?_⟩
    have hck : k = (k - 1) + 1 := by omega
    rw [hck, List.take_succ_cons, List.all_cons, Bool.and_eq_true] at h2
    exact h2.1

theorem head_of_b32l {cs : List Char} (h : isBech32Lower cs = true) :
    ∃ c t, cs = c :: t ∧ isLowerAlpha c = true := by
  rw [isBech32Lower_exists] at h
  obtain ⟨k, hk, hat⟩ := h
  rw [bech32LowerAt_iff] at hat
  obtain ⟨data, h1, h2, -, -, -, -⟩ := hat
  have hk2 : 2 ≤ k := by
    simp at hk
    rcases hk with rfl | rfl | rfl | rfl <;> omega
  cases cs with
  | nil => simp at h1; omega
  | cons c t =>
    refine ⟨c, t, rfl, ?_⟩
    have hck : k = (k - 1) + 1 := by omega
    rw [hck, List.take_succ_cons, List.all_cons, Bool.and_eq_true] at h2
    exact h2.1



theorem all_map_lower {p q : Char → Bool} {l : List Char}
    (hmap : ∀ c, p c = true → q (lowerChar c) = true) (h : l.all p = true) :
    (l.map lowerChar).all q = true := by
  rw [List.all_eq_true] at h ⊢
  intro x hx
  rw [List.mem_map] at hx
  obtain ⟨c, hc, rfl⟩ := hx
  exact hmap c (h c hc)

theorem lowerChar_one : lowerChar '1' = '1' := rfl
theorem lowerChar_zero : lowerChar '0' = '0' := rfl
theorem lowerChar_four : lowerChar '4' = '4' := rfl

/-- Lowercasing maps uppercase bech32 matches to lowercase ones. -/
theorem map_b32u_to_b32l {cs : List Char} (h : isBech32Upper cs = true) :
    isBech32Lower (cs.map lowerChar) = true := by
  rw [isBech32Upper_exists] at h
  obtain ⟨k, hk, hat⟩ := h
  rw [bech32UpperAt_iff] at hat
  obtain ⟨data, h1, h2, h3, h4, h5, h6⟩ := hat
  rw [isBech32Lower_exists]
  refine ⟨k, hk, ?_⟩
  rw [bech32LowerAt_iff]
  refine ⟨data.map lowerChar, ?_, ?_, ?_, ?_, ?_, ?_⟩
  · rw [← List.map_take, List.length_map]
    exact h1
  · rw [← List.map_take]
    exact all_map_lower (fun c => lower_of_upperAlpha) h2
  · rw [← List.map_drop, h3]
    simp [lowerChar_one]
  · exact all_map_lower (fun c => lower_of_b32dataUpper) h4
  · rw [List.length_map]; exact h5
  · rw [List.length_map]; exact h6

/-- Lowercasing preserves uncompressed-key matches. -/
theorem map_uncomp {cs : List Char} (h : isUncompressedKey cs = true) :
    isUncompressedKey (cs.map lowerChar) = true := by
  rw [isUncompressedKey_iff] at h ⊢
  obtain ⟨rest, heq, hlen, hall⟩ := h
  subst heq
  refine ⟨rest.map lowerChar, ?_, ?_, ?_⟩
  · simp [lowerChar_zero, lowerChar_four]
  · rw [List.length_map]; exact hlen
  · exact all_map_lower (fun c => lower_of_hex) hall

/-- Lowercasing preserves compressed-key matches. -/
theorem map_comp {cs : List Char} (h : isCompressedKey cs = true) :
    isCompressedKey (cs.map lowerChar) = true := by
  rw [isCompressedKey_iff] at h ⊢
  obtain ⟨c1, rest, heq, hc1, hlen, hall⟩ := h
  subst heq
  refine ⟨c1, rest.map lowerChar, ?_, hc1, ?_, ?_⟩
  · have hfix : lowerChar c1 = c1 := by
      rcases hc1 with rfl | rfl <;> rfl
    simp [lowerChar_zero, hfix]
  · rw [List.length_map]; exact hlen
  · exact all_map_lower (fun c => lower_of_hex) hall

/-- Lowercase bech32 matches are fixed by lowercasing. -/
theorem map_id_of_b32l {cs : List Char} (h : isBech32Lower cs = true) :
    cs.map lowerChar = cs := by
  have hfix : ∀ c ∈ cs, lowerChar c = c := by
    rw [isBech32Lower_exists] at h
    obtain ⟨k, hk, hat⟩ := h
    rw [bech32LowerAt_iff] at hat
    obtain ⟨data, h1, h2, h3, h4, h5, h6⟩ := hat
    intro c hc
    rw [← List.take_append_drop k cs, List.mem_append, h3] at hc
    rcases hc with hc | hc
    · rw [List.all_eq_true] at h2
      exact lowerChar_fix_lowerAlpha (h2 c hc)
    · rw [List.mem_cons] at hc
      rcases hc with hc | hc
      · rw [hc]; rfl
      · rw [List.all_eq_true] at h4
        exact lowerChar_fix_b32dataLower (h4 c hc)
  calc cs.map lowerChar = cs.map id := List.map_congr_left hfix
  _ = cs := List.map_id cs



theorem toList_toLowerStr (s : String) : (toLowerStr s).toList = s.toList.map lowerChar := rfl

theorem isBase58Short_iff {cs : List Char} :
    isBase58Short cs = true ↔ cs.all isBase58Char = true ∧ 26 ≤ cs.length ∧ cs.length ≤ 35 := by
  simp [isBase58Short, Bool.and_eq_true, decide_eq_true_iff]
  tauto

theorem isBase58Long_iff {cs : List Char} :
    isBase58Long cs = true ↔ cs.all isBase58Char = true ∧ cs.length = 80 := by
  simp [isBase58Long, Bool.and_eq_true, decide_eq_true_iff]

/-- `testAddress` on uppercase bech32: lowercased. -/
theorem ta_b32u {s : String} (h : isBech32Upper s.toList = true) :
    testAddress s = some (toLowerStr s) := by
  have hd : isBech32Upper s.data = true := h
  have hm : matchesAddrRegex s.data = true := by simp [matchesAddrRegex, hd]
  have hs : matchesLowercaseRegex s.data = true := by
    simp [matchesLowercaseRegex, prefixUpper_of_b32u hd]
  have h1 : isUncompressedKey ((toLowerStr s).data) = false := by
    apply no_uncomp_of_len
    have hl : (toLowerStr s).data = s.data.map lowerChar := rfl
    rw [hl, List.length_map]
    have := (len_of_b32u hd).2
    omega
  have h2 : isCompressedKey ((toLowerStr s).data) = false := by
    obtain ⟨c, t, heq, hu⟩ := head_of_b32u hd
    have hl : (toLowerStr s).data = s.data.map lowerChar := rfl
    rw [hl, heq, List.map_cons]
    exact no_comp_of_head_lower (lower_of_upperAlpha hu)
  simp [testAddress, hm, hs, h1, h2]

/-- `testAddress` on lowercase bech32: unchanged. -/
theorem ta_b32l {s : String} (h : isBech32Lower s.toList = true) :
    testAddress s = some s := by
  have hd : isBech32Lower s.data = true := h
  have hm : matchesAddrRegex s.data = true := by simp [matchesAddrRegex, hd]
  have hid : toLowerStr s = s := by
    have hmap : s.data.map lowerChar = s.data := map_id_of_b32l hd
    unfold toLowerStr
    rw [hmap]
  obtain ⟨c, t, heq, hl⟩ := head_of_b32l hd
  have h1 : isUncompressedKey s.data = false := by
    rw [heq]; exact no_uncomp_of_head_lower hl
  have h2 : isCompressedKey s.data = false := by
    rw [heq]; exact no_comp_of_head_lower hl
  simp [testAddress, hm, hid, h1, h2]

/-- `testAddress` on legacy base58: unchanged unless the start-anchored
uppercase-bech32 alternative of the lowercasing regex fires, in which case
the string comes back lowercased. -/
theorem ta_base58 {s : String}
    (h : isBase58Short s.toList = true ∨ isBase58Long s.toList = true) :
    testAddress s =
      if prefixUpperBech32 s.toList then some (toLowerStr s) else some s := by
  have hd : isBase58Short s.data = true ∨ isBase58Long s.data = true := h
  have hall : s.data.all isBase58Char = true := by
    rcases hd with h' | h'
    · exact (isBase58Short_iff.mp h').1
    · exact (isBase58Long_iff.mp h').1
  have hlen : (26 ≤ s.data.length ∧ s.data.length ≤ 35) ∨ s.data.length = 80 := by
    rcases hd with h' | h'
    · exact Or.inl ⟨(isBase58Short_iff.mp h').2.1, (isBase58Short_iff.mp h').2.2⟩
    · exact Or.inr (isBase58Long_iff.mp h').2
  have hm : matchesAddrRegex s.data = true := by
    rcases hd with h' | h' <;> simp [matchesAddrRegex, h']
  have hc : containsUncompressed s.data = false := no_contains_of_short (by omega)
  have he2 : endsCompressed s.data = false := no_ends_of_base58 hall
  have hsecond : matchesLowercaseRegex s.data = prefixUpperBech32 s.data := by
    simp [matchesLowercaseRegex, hc, he2]
  have hshow : (if prefixUpperBech32 s.toList then some (toLowerStr s) else some s)
      = (if prefixUpperBech32 s.data then some (toLowerStr s) else some s) := rfl
  rw [hshow]
  cases hp : prefixUpperBech32 s.data
  · have h1 : isUncompressedKey s.data = false := no_uncomp_of_len (by omega)
    have h2 : isCompressedKey s.data = false := no_comp_of_len (by omega)
    simp [testAddress, hm, hsecond, hp, h1, h2]
  · have h1 : isUncompressedKey ((toLowerStr s).data) = false := by
      apply no_uncomp_of_len
      have hl : (toLowerStr s).data = s.data.map lowerChar := rfl
      rw [hl, List.length_map]
      omega
    have h2 : isCompressedKey ((toLowerStr s).data) = false := by
      apply no_comp_of_len
      have hl : (toLowerStr s).data = s.data.map lowerChar := rfl
      rw [hl, List.length_map]
      omega
    simp [testAddress, hm, hsecond, hp, h1, h2]

/-- `testAddress` on an uncompressed public key: the P2PK script over the
*lowercased* key. -/
theorem ta_uncomp {s : String} (h : isUncompressedKey s.toList = true) :
    testAddress s = some ("41" ++ toLowerStr s ++ "ac") := by
  have hd : isUncompressedKey s.data = true := h
  have hm : matchesAddrRegex s.data = true := by simp [matchesAddrRegex, hd]
  have hs : matchesLowercaseRegex s.data = true := by
    simp [matchesLowercaseRegex, contains_of_uncomp hd]
  have h1 : isUncompressedKey ((toLowerStr s).data) = true := map_uncomp hd
  simp [testAddress, hm, hs, h1]

/-- `testAddress` on a compressed public key: the P2PK script over the
*lowercased* key. -/
theorem ta_comp {s : String} (h : isCompressedKey s.toList = true) :
    testAddress s = some ("21" ++ toLowerStr s ++ "ac") := by
  have hd : isCompressedKey s.data = true := h
  have hm : matchesAddrRegex s.data = true := by simp [matchesAddrRegex, hd]
  have hs : matchesLowercaseRegex s.data = true := by
    simp [matchesLowercaseRegex, ends_of_comp hd]
  have h1 : isUncompressedKey ((toLowerStr s).data) = false := by
    apply no_uncomp_of_len
    have hl : (toLowerStr s).data = s.data.map lowerChar := rfl
    rw [hl, List.length_map]
    have := len_of_comp hd
    omega
  have h2 : isCompressedKey ((toLowerStr s).data) = true := map_comp hd
  simp [testAddress, hm, hs, h1, h2]

/-- `testAddress` rejects what the classifier regex rejects. -/
theorem ta_reject {s : String} (h : matchesAddrRegex s.toList = false) :
    testAddress s = none := by
  have hd : matchesAddrRegex s.data = false := h
  simp [testAddress, hd]



set_option maxRecDepth 40000 in
/-- Claim C2, amended: the validator returns the lowercased form for an
uppercase bech32 string; the P2PK script `41‖lower(key)‖ac` (resp.
`21‖lower(key)‖ac`) for an uncompressed (resp. compressed) public key,
the key lowercased; the input unchanged for lowercase bech32 and for
legacy base58 *not* starting with an uppercase-bech32-shaped prefix;
the lowercased input for base58 strings with such a prefix; and rejects
every string the classifier regex rejects. -/
theorem claim_C2_amended (s : String) :
    (isBech32Upper s.toList = true → testAddress s = some (toLowerStr s)) ∧
    (isUncompressedKey s.toList = true → testAddress s = some ("41" ++ toLowerStr s ++ "ac")) ∧
    (isCompressedKey s.toList = true → testAddress s = some ("21" ++ toLowerStr s ++ "ac")) ∧
    (isBech32Lower s.toList = true → testAddress s = some s) ∧
    ((isBase58Short s.toList = true ∨ isBase58Long s.toList = true) →
      testAddress s = if prefixUpperBech32 s.toList then some (toLowerStr s) else some s) ∧
    (matchesAddrRegex s.toList = false → testAddress s = none) :=
  ⟨ta_b32u, ta_uncomp, ta_comp, ta_b32l, ta_base58, ta_reject⟩

set_option maxRecDepth 40000 in
/-- Witness for the amended claim C2 at concrete inputs. -/
theorem claim_C2_amended_witness :
    testAddress "BC1QQQQQQQQQQ" = some "bc1qqqqqqqqqq" ∧ testAddress "x" = none := by
  constructor
  · have h := (claim_C2_amended "BC1QQQQQQQQQQ").1 (by decide)
    rw [h]
    rfl
  · exact (claim_C2_amended "x").2.2.2.2.2 (by decide)

/-- Claim C3, amended: the validator is idempotent on canonical outputs it
returns unchanged, and on the lowercasing of uppercase bech32 inputs; it is
not idempotent on public-key inputs (their P2PK script canonical form is
itself rejected, see the counterexample). -/
theorem claim_C3_amended (s c : String) (h : testAddress s = some c)
    (hc : isBech32Upper s.toList = true ∨ c = s) :
    testAddress c = some c := by
  rcases hc with hu | rfl
  · have h2 := ta_b32u hu
    rw [h] at h2
    injection h2 with h2
    subst h2
    exact ta_b32l (map_b32u_to_b32l hu)
  · exact h

set_option maxRecDepth 40000 in
/-- Witness for the amended claim C3: rerunning the validator on the
canonical form of an uppercase bech32 input returns it unchanged. -/
theorem claim_C3_amended_witness :
    testAddress "bc1qqqqqqqqqq" = some "bc1qqqqqqqqqq" :=
  claim_C3_amended "BC1QQQQQQQQQQ" "bc1qqqqqqqqqq" (by rfl) (Or.inl (by decide))


/-- Processing a `want` frame sets each class flag to membership in the
data list, sets `wants`, and leaves every other session field alone. -/
theorem handleMessage_want_client (cfg : Config) (env : Env) (sd : StrMap)
    (c : ClientState) (d : List String) :
    (handleMessage cfg env sd c (wantFrame d)).client =
      { c with
        wantBlocks := d.contains "blocks",
        wantMempoolBlocks := d.contains "mempool-blocks",
        wantLive2hChart := d.contains "live-2h-chart",
        wantStats := d.contains "stats",
        wantTomahawk := d.contains "tomahawk",
        wants := true } := by
  simp [handleMessage, wantFrame, applyWant, applyTrackAddresses, applyTrackScriptpubkeys,
    applyInit, applyPing]



/-- Claim C8, amended: after a `want` frame whose list includes class `cl`
followed by one whose list excludes it, the session equals the state the
second frame alone determines — every want flag is membership in the second
list, `wants` is set, all other fields are untouched.  The session
therefore returns to its pre-frame state `s` exactly when `s` already had
those flag values; the seeded response of the first frame is the only other
effect. -/
theorem claim_C8_amended (cfg : Config) (env : Env) (sd : StrMap) (c : ClientState)
    (cl : String) (d1 d2 : List String)
    (h1 : d1.contains cl = true) (h2 : d2.contains cl = false) :
    (handleMessage cfg env sd
        (handleMessage cfg env sd c (wantFrame d1)).client (wantFrame d2)).client =
      (handleMessage cfg env sd c (wantFrame d2)).client ∧
    (wantFlagsMatch c d2 → c.wants = true →
      (handleMessage cfg env sd
          (handleMessage cfg env sd c (wantFrame d1)).client (wantFrame d2)).client = c) := by
  constructor
  · rw [handleMessage_want_client, handleMessage_want_client, handleMessage_want_client]
  · intro hflags hwants
    obtain ⟨f1, f2, f3, f4, f5⟩ := hflags
    rw [handleMessage_want_client, handleMessage_want_client]
    cases c
    simp_all

/-- Witness for the amended claim C8. -/
theorem claim_C8_amended_witness :
    (handleMessage ⟨1, 8⟩ envEmpty []
        (handleMessage ⟨1, 8⟩ envEmpty [] { freshClient with wants := true }
          (wantFrame ["stats"])).client
        (wantFrame [])).client = { freshClient with wants := true } :=
  (claim_C8_amended ⟨1, 8⟩ envEmpty [] { freshClient with wants := true }
      "stats" ["stats"] [] rfl rfl).2 ⟨rfl, rfl, rfl, rfl, rfl⟩ rfl


theorem mem_set_weak {m : StrMap} {k v : String} :
    ∀ {p : String × String}, p ∈ StrMap.set m k v → p = (k, v) ∨ p ∈ m := by
  induction m with
  | nil => intro p hp; simp [StrMap.set] at hp; exact Or.inl hp
  | cons kv rest ih =>
    intro p hp
    unfold StrMap.set at hp
    by_cases hk : kv.1 = k
    · rw [if_pos hk] at hp
      rcases List.mem_cons.mp hp with h | h
      · exact Or.inl h
      · exact Or.inr (List.mem_cons_of_mem _ h)
    · rw [if_neg hk] at hp
      rcases List.mem_cons.mp hp with h | h
      · exact Or.inr (by rw [h]; exact List.mem_cons_self _ _)
      · rcases ih h with h' | h'
        · exact Or.inl h'
        · exact Or.inr (List.mem_cons_of_mem _ h')

theorem set_pairwise {m : StrMap} {k v : String}
    (h : m.Pairwise (fun p q => p.1 ≠ q.1)) :
    (StrMap.set m k v).Pairwise (fun p q => p.1 ≠ q.1) := by
  induction m with
  | nil => simp [StrMap.set]
  | cons kv rest ih =>
    rw [List.pairwise_cons] at h
    unfold StrMap.set
    by_cases hk : kv.1 = k
    · rw [if_pos hk]
      rw [List.pairwise_cons]
      refine ⟨?_, h.2⟩
      intro q hq
      have := h.1 q hq
      rw [hk] at this
      exact this
    · rw [if_neg hk]
      rw [List.pairwise_cons]
      refine ⟨?_, ih h.2⟩
      intro q hq
      rcases mem_set_weak hq with rfl | hq'
      · exact hk
      · exact h.1 q hq'

theorem mem_set_iff {m : StrMap} {k v : String}
    (hdist : m.Pairwise (fun p q => p.1 ≠ q.1)) {p : String × String} :
    p ∈ StrMap.set m k v ↔ p = (k, v) ∨ (p ∈ m ∧ p.1 ≠ k) := by
  induction m with
  | nil => simp [StrMap.set]
  | cons kv rest ih =>
    rw [List.pairwise_cons] at hdist
    unfold StrMap.set
    by_cases hk : kv.1 = k
    · rw [if_pos hk]
      constructor
      · intro hp
        rcases List.mem_cons.mp hp with h | h
        · exact Or.inl h
        · refine Or.inr ⟨List.mem_cons_of_mem _ h, ?_⟩
          have := hdist.1 p h
          rw [hk] at this
          exact fun hc => this hc.symm |>.elim
      · rintro (rfl | ⟨hp, hne⟩)
        · exact List.mem_cons_self _ _
        · rcases List.mem_cons.mp hp with h | h
          · exfalso; rw [h] at hne; rw [hk] at hne; exact hne rfl
          · exact List.mem_cons_of_mem _ h
    · rw [if_neg hk]
      constructor
      · intro hp
        rcases List.mem_cons.mp hp with h | h
        · refine Or.inr ⟨by rw [h]; exact List.mem_cons_self _ _, by rw [h]; exact hk⟩
        · rcases (ih hdist.2).mp h with h' | ⟨h1, h2⟩
          · exact Or.inl h'
          · exact Or.inr ⟨List.mem_cons_of_mem _ h1, h2⟩
      · rintro (rfl | ⟨hp, hne⟩)
        · exact List.mem_cons_of_mem _ ((ih hdist.2).mpr (Or.inl rfl))
        · rcases List.mem_cons.mp hp with h | h
          · rw [h]; exact List.mem_cons_self _ _
          · exact List.mem_cons_of_mem _ ((ih hdist.2).mpr (Or.inr ⟨h, hne⟩))



/-- The address-map invariant: keys are distinct and each key maps to its
own canonical form. -/
def bamInv (m : StrMap) : Prop :=
  m.Pairwise (fun p q => p.1 ≠ q.1) ∧ ∀ p ∈ m, testAddress p.1 = some p.2

theorem bamInv_nil : bamInv [] := ⟨List.Pairwise.nil, by simp⟩

theorem bamInv_set {m : StrMap} {k v : String} (h : bamInv m) (hv : testAddress k = some v) :
    bamInv (StrMap.set m k v) := by
  refine ⟨set_pairwise h.1, ?_⟩
  intro p hp
  rcases mem_set_weak hp with rfl | hp'
  · exact hv
  · exact h.2 p hp'

theorem bamGo_inv : ∀ (entries : List String) (m : StrMap), bamInv m →
    bamInv (buildAddressMapGo m entries) := by
  intro entries
  induction entries with
  | nil => intro m h; exact h
  | cons a rest ih =>
    intro m h
    unfold buildAddressMapGo
    cases hta : testAddress a with
    | none => exact ih m h
    | some v => exact ih _ (bamInv_set h hta)

theorem mem_bamGo : ∀ (entries : List String) (m : StrMap), bamInv m →
    ∀ {k v : String},
      ((k, v) ∈ buildAddressMapGo m entries ↔
        (k, v) ∈ m ∨ (k ∈ entries ∧ testAddress k = some v)) := by
  intro entries
  induction entries with
  | nil => intro m h k v; simp [buildAddressMapGo]
  | cons a rest ih =>
    intro m h k v
    unfold buildAddressMapGo
    cases hta : testAddress a with
    | none =>
      rw [ih m h]
      constructor
      · rintro (hm | ⟨hk, hv⟩)
        · exact Or.inl hm
        · exact Or.inr ⟨List.mem_cons_of_mem _ hk, hv⟩
      · rintro (hm | ⟨hk, hv⟩)
        · exact Or.inl hm
        · rcases List.mem_cons.mp hk with rfl | hk'
          · rw [hta] at hv; cases hv
          · exact Or.inr ⟨hk', hv⟩
    | some v' =>
      rw [ih _ (bamInv_set h hta)]
      rw [mem_set_iff h.1]
      constructor
      · rintro ((heq | ⟨hm, hne⟩) | ⟨hk, hv⟩)
        · injection heq with h1 h2
          subst h1; subst h2
          exact Or.inr ⟨List.mem_cons_self _ _, hta⟩
        · exact Or.inl hm
        · exact Or.inr ⟨List.mem_cons_of_mem _ hk, hv⟩
      · rintro (hm | ⟨hk, hv⟩)
        · by_cases hka : k = a
          · subst hka
            have := h.2 _ hm
            rw [hta] at this
            injection this with hv'
            exact Or.inl (Or.inl (by rw [hv']))
          · exact Or.inl (Or.inr ⟨hm, hka⟩)
        · rcases List.mem_cons.mp hk with rfl | hk'
          · rw [hta] at hv
            injection hv with hv
            exact Or.inl (Or.inl (by rw [hv]))
          · exact Or.inr ⟨hk', hv⟩

/-- Dropping entries that fail validation does not change the address map. -/
theorem bamGo_filter : ∀ (entries : List String) (m : StrMap),
    buildAddressMapGo m (entries.filter fun a => (testAddress a).isSome) =
      buildAddressMapGo m entries := by
  intro entries
  induction entries with
  | nil => intro m; rfl
  | cons a rest ih =>
    intro m
    cases hta : testAddress a with
    | none =>
      rw [List.filter_cons]
      rw [if_neg (by simp [hta])]
      rw [ih]
      conv_rhs => unfold buildAddressMapGo
      rw [hta]
    | some v =>
      rw [List.filter_cons]
      rw [if_pos (by simp [hta])]
      conv_lhs => unfold buildAddressMapGo
      conv_rhs => unfold buildAddressMapGo
      rw [hta]
      exact ih _

/-- A frame whose entries all fail validation produces an empty map. -/
theorem bamGo_all_invalid : ∀ (entries : List String) (m : StrMap),
    (∀ a ∈ entries, testAddress a = none) → buildAddressMapGo m entries = m := by
  intro entries
  induction entries with
  | nil => intro m _; rfl
  | cons a rest ih =>
    intro m h
    unfold buildAddressMapGo
    rw [h a (List.mem_cons_self _ _)]
    exact ih m fun a' ha' => h a' (List.mem_cons_of_mem _ ha')



theorem keys_set_self {r : Resp} {k : String} {v : Option String} :
    (Resp.keys (Resp.set r k v)).contains k = true := by
  induction r with
  | nil => simp [Resp.set, Resp.keys]
  | cons kv rest ih =>
    unfold Resp.set
    by_cases hk : kv.1 = k
    · rw [if_pos hk]; simp [Resp.keys]
    · rw [if_neg hk]
      simp only [Resp.keys, List.map_cons, List.contains_cons]
      rw [Bool.or_eq_true]
      exact Or.inr ih

theorem keys_set_other {r : Resp} {k k' : String} {v : Option String} (h : k' ≠ k) :
    (Resp.keys (Resp.set r k v)).contains k' = (Resp.keys r).contains k' := by
  induction r with
  | nil => simp [Resp.set, Resp.keys, h]
  | cons kv rest ih =>
    unfold Resp.set
    by_cases hk : kv.1 = k
    · rw [if_pos hk]
      simp only [Resp.keys, List.map_cons, List.contains_cons]
      rw [hk]
    · rw [if_neg hk]
      simp only [Resp.keys, List.map_cons, List.contains_cons]
      simp only [Resp.keys] at ih
      rw [ih]

/-- The class seeding never writes either plural-tracking error key. -/
theorem seed_no_track_error (sd : StrMap) (env : Env) (wn : WantNow) (rb : Bool)
    (k : String) (hk1 : k ≠ "blocks") (hk2 : k ≠ "mempool-blocks") (hk3 : k ≠ "mempoolInfo")
    (hk4 : k ≠ "vBytesPerSecond") (hk5 : k ≠ "fees") (hk6 : k ≠ "da") (hk7 : k ≠ "tomahawk") :
    (Resp.keys (seedResponse sd env wn rb)).contains k = false := by
  unfold seedResponse
  split_ifs <;>
    simp only [keys_set_other hk1, keys_set_other hk2, keys_set_other hk3, keys_set_other hk4,
      keys_set_other hk5, keys_set_other hk6, keys_set_other hk7] <;>
    simp [Resp.keys]



theorem applyWant_track (c : ClientState) (msg : Frame) :
    (applyWant c msg).1.trackAddresses = c.trackAddresses ∧
    (applyWant c msg).1.trackScriptpubkeys = c.trackScriptpubkeys := by
  unfold applyWant
  split_ifs
  · cases msg.data <;> simp
  · simp

theorem applyTA_parts (cfg : Config) (c : ClientState) (r : Resp) (msg : Frame) :
    ((∀ entries, msg.trackAddresses = some entries →
        (applyTrackAddresses cfg c r msg).1.trackAddresses =
          (if (buildAddressMap entries).length > cfg.maxTrackedAddresses then none
           else if (buildAddressMap entries).length > 0 then some (buildAddressMap entries)
           else none) ∧
        (applyTrackAddresses cfg c r msg).2 =
          (if (buildAddressMap entries).length > cfg.maxTrackedAddresses
           then Resp.set r "track-addresses-error" (some (tooManyAddressesMsg cfg))
           else r)) ∧
     (msg.trackAddresses = none → (applyTrackAddresses cfg c r msg).1.trackAddresses =
        c.trackAddresses ∧ (applyTrackAddresses cfg c r msg).2 = r)) ∧
    (applyTrackAddresses cfg c r msg).1.trackScriptpubkeys = c.trackScriptpubkeys := by
  unfold applyTrackAddresses
  cases hta : msg.trackAddresses with
  | none => simp
  | some entries =>
    refine ⟨⟨?_, ?_⟩, ?_⟩
    · intro e he
      injection he with he
      subst he
      by_cases h1 : cfg.maxTrackedAddresses < (buildAddressMap entries).length
      · simp only [if_pos h1]
        simp
      · simp only [if_neg h1]
        by_cases h2 : 0 < (buildAddressMap entries).length
        · simp only [if_pos h2]
          simp
        · simp only [if_neg h2]
          simp
    · intro he
      simp at he
    · dsimp only
      split_ifs <;> rfl

theorem applySPK_parts (cfg : Config) (c : ClientState) (r : Resp) (msg : Frame) :
    ((∀ entries, msg.trackScriptpubkeys = some entries →
        (applyTrackScriptpubkeys cfg c r msg).1.trackScriptpubkeys =
          (if (buildSpkList entries).length > cfg.maxTrackedAddresses then none
           else if (buildSpkList entries).length > 0 then some (buildSpkList entries)
           else none) ∧
        (applyTrackScriptpubkeys cfg c r msg).2 =
          (if (buildSpkList entries).length > cfg.maxTrackedAddresses
           then Resp.set r "track-scriptpubkeys-error" (some (tooManyScriptpubkeysMsg cfg))
           else r)) ∧
     (msg.trackScriptpubkeys = none → (applyTrackScriptpubkeys cfg c r msg).1.trackScriptpubkeys =
        c.trackScriptpubkeys ∧ (applyTrackScriptpubkeys cfg c r msg).2 = r)) ∧
    (applyTrackScriptpubkeys cfg c r msg).1.trackAddresses = c.trackAddresses := by
  unfold applyTrackScriptpubkeys
  cases hts : msg.trackScriptpubkeys with
  | none => simp
  | some entries =>
    refine ⟨⟨?_, ?_⟩, ?_⟩
    · intro e he
      injection he with he
      subst he
      by_cases h1 : cfg.maxTrackedAddresses < (buildSpkList entries).length
      · simp only [if_pos h1]
        simp
      · simp only [if_neg h1]
        by_cases h2 : 0 < (buildSpkList entries).length
        · simp only [if_pos h2]
          simp
        · simp only [if_neg h2]
          simp
    · intro he
      simp at he
    · dsimp only
      split_ifs <;> rfl

theorem handleMessage_client_eq (cfg : Config) (env : Env) (sd : StrMap)
    (c : ClientState) (msg : Frame) :
    (handleMessage cfg env sd c msg).client =
      (applyTrackScriptpubkeys cfg
        (applyTrackAddresses cfg (applyWant c msg).1
          (seedResponse sd env (applyWant c msg).2 msg.refreshBlocks) msg).1
        (applyTrackAddresses cfg (applyWant c msg).1
          (seedResponse sd env (applyWant c msg).2 msg.refreshBlocks) msg).2 msg).1 := by
  cases hini : (applyInit cfg env sd msg).2.2 <;> simp [handleMessage, hini]

theorem handleMessage_response_eq (cfg : Config) (env : Env) (sd : StrMap)
    (c : ClientState) (msg : Frame) :
    (handleMessage cfg env sd c msg).response =
      (if (applyInit cfg env sd msg).2.2 then
        (applyTrackScriptpubkeys cfg
          (applyTrackAddresses cfg (applyWant c msg).1
            (seedResponse sd env (applyWant c msg).2 msg.refreshBlocks) msg).1
          (applyTrackAddresses cfg (applyWant c msg).1
            (seedResponse sd env (applyWant c msg).2 msg.refreshBlocks) msg).2 msg).2
      else
        applyPing
          (applyTrackScriptpubkeys cfg
            (applyTrackAddresses cfg (applyWant c msg).1
              (seedResponse sd env (applyWant c msg).2 msg.refreshBlocks) msg).1
            (applyTrackAddresses cfg (applyWant c msg).1
              (seedResponse sd env (applyWant c msg).2 msg.refreshBlocks) msg).2 msg).2 msg) := by
  unfold handleMessage
  split <;> simp_all



theorem hm_trackAddresses_some (cfg : Config) (env : Env) (sd : StrMap) (c : ClientState)
    (msg : Frame) (entries : List String) (h : msg.trackAddresses = some entries) :
    (handleMessage cfg env sd c msg).client.trackAddresses =
      (if (buildAddressMap entries).length > cfg.maxTrackedAddresses then none
       else if (buildAddressMap entries).length > 0 then some (buildAddressMap entries)
       else none) := by
  rw [handleMessage_client_eq]
  rw [(applySPK_parts cfg _ _ msg).2]
  exact ((applyTA_parts cfg _ _ msg).1.1 entries h).1

theorem hm_trackAddresses_none (cfg : Config) (env : Env) (sd : StrMap) (c : ClientState)
    (msg : Frame) (h : msg.trackAddresses = none) :
    (handleMessage cfg env sd c msg).client.trackAddresses = c.trackAddresses := by
  rw [handleMessage_client_eq]
  rw [(applySPK_parts cfg _ _ msg).2]
  rw [((applyTA_parts cfg _ _ msg).1.2 h).1]
  exact (applyWant_track c msg).1

theorem hm_trackScriptpubkeys_some (cfg : Config) (env : Env) (sd : StrMap) (c : ClientState)
    (msg : Frame) (entries : List String) (h : msg.trackScriptpubkeys = some entries) :
    (handleMessage cfg env sd c msg).client.trackScriptpubkeys =
      (if (buildSpkList entries).length > cfg.maxTrackedAddresses then none
       else if (buildSpkList entries).length > 0 then some (buildSpkList entries)
       else none) := by
  rw [handleMessage_client_eq]
  exact ((applySPK_parts cfg _ _ msg).1.1 entries h).1

theorem hm_trackScriptpubkeys_none (cfg : Config) (env : Env) (sd : StrMap) (c : ClientState)
    (msg : Frame) (h : msg.trackScriptpubkeys = none) :
    (handleMessage cfg env sd c msg).client.trackScriptpubkeys = c.trackScriptpubkeys := by
  rw [handleMessage_client_eq]
  rw [((applySPK_parts cfg _ _ msg).1.2 h).1]
  rw [(applyTA_parts cfg _ _ msg).2]
  exact (applyWant_track c msg).2

theorem hm_addrError (cfg : Config) (env : Env) (sd : StrMap) (c : ClientState)
    (msg : Frame) (entries : List String) (h : msg.trackAddresses = some entries) :
    (Resp.keys (handleMessage cfg env sd c msg).response).contains "track-addresses-error" =
      decide (cfg.maxTrackedAddresses < (buildAddressMap entries).length) := by
  have hta : ∀ (c1 : ClientState) (wn : WantNow) rb,
      (Resp.keys (applyTrackAddresses cfg c1 (seedResponse sd env wn rb) msg).2).contains
        "track-addresses-error" =
      decide (cfg.maxTrackedAddresses < (buildAddressMap entries).length) := by
    intro c1 wn rb
    rw [((applyTA_parts cfg c1 _ msg).1.1 entries h).2]
    by_cases ho : cfg.maxTrackedAddresses < (buildAddressMap entries).length
    · rw [if_pos ho, keys_set_self]
      simp [ho]
    · rw [if_neg ho]
      rw [seed_no_track_error sd env wn rb _ (by decide) (by decide) (by decide) (by decide)
        (by decide) (by decide) (by decide)]
      simp [ho]
  have hspk : ∀ (c1 : ClientState) (r : Resp),
      (Resp.keys (applyTrackScriptpubkeys cfg c1 r msg).2).contains "track-addresses-error" =
      (Resp.keys r).contains "track-addresses-error" := by
    intro c1 r
    cases hts : msg.trackScriptpubkeys with
    | none => rw [((applySPK_parts cfg c1 r msg).1.2 hts).2]
    | some es =>
      rw [((applySPK_parts cfg c1 r msg).1.1 es hts).2]
      split_ifs
      · rw [keys_set_other (by decide)]
      · rfl
  have hping : ∀ r : Resp,
      (Resp.keys (applyPing r msg)).contains "track-addresses-error" =
      (Resp.keys r).contains "track-addresses-error" := by
    intro r
    unfold applyPing
    split_ifs
    · rw [keys_set_other (by decide)]
    · rfl
  rw [handleMessage_response_eq]
  cases hini : (applyInit cfg env sd msg).2.2
  · rw [if_neg (by simp)]
    rw [hping, hspk, hta]
  · rw [if_pos rfl]
    rw [hspk, hta]

theorem hm_spkError (cfg : Config) (env : Env) (sd : StrMap) (c : ClientState)
    (msg : Frame) (entries : List String) (h : msg.trackScriptpubkeys = some entries) :
    (Resp.keys (handleMessage cfg env sd c msg).response).contains "track-scriptpubkeys-error" =
      decide (cfg.maxTrackedAddresses < (buildSpkList entries).length) := by
  have hta : ∀ (c1 : ClientState) (wn : WantNow) rb,
      (Resp.keys (applyTrackAddresses cfg c1 (seedResponse sd env wn rb) msg).2).contains
        "track-scriptpubkeys-error" = false := by
    intro c1 wn rb
    have hseed : (Resp.keys (seedResponse sd env wn rb)).contains "track-scriptpubkeys-error"
        = false :=
      seed_no_track_error sd env wn rb _ (by decide) (by decide) (by decide) (by decide)
        (by decide) (by decide) (by decide)
    cases hta' : msg.trackAddresses with
    | none => rw [((applyTA_parts cfg c1 _ msg).1.2 hta').2, hseed]
    | some es =>
      rw [((applyTA_parts cfg c1 _ msg).1.1 es hta').2]
      split_ifs
      · rw [keys_set_other (by decide), hseed]
      · rw [hseed]
  have hspk : ∀ (c1 : ClientState) (r : Resp),
      (Resp.keys r).contains "track-scriptpubkeys-error" = false →
      (Resp.keys (applyTrackScriptpubkeys cfg c1 r msg).2).contains "track-scriptpubkeys-error" =
      decide (cfg.maxTrackedAddresses < (buildSpkList entries).length) := by
    intro c1 r hr
    rw [((applySPK_parts cfg c1 r msg).1.1 entries h).2]
    by_cases ho : cfg.maxTrackedAddresses < (buildSpkList entries).length
    · rw [if_pos ho, keys_set_self]
      simp [ho]
    · rw [if_neg ho, hr]
      simp [ho]
  have hping : ∀ r : Resp,
      (Resp.keys (applyPing r msg)).contains "track-scriptpubkeys-error" =
      (Resp.keys r).contains "track-scriptpubkeys-error" := by
    intro r
    unfold applyPing
    split_ifs
    · rw [keys_set_other (by decide)]
    · rfl
  rw [handleMessage_response_eq]
  cases hini : (applyInit cfg env sd msg).2.2
  · rw [if_neg (by simp)]
    rw [hping, hspk _ _ (hta _ _ _)]
  · rw [if_pos rfl]
    rw [hspk _ _ (hta _ _ _)]



/-- Claim C4, amended: the limit comparison counts the entries the branch
actually keeps — the distinct raw entries that validate for
`track-addresses`, and the valid entries (duplicates included) for
`track-scriptpubkeys`.  When that count exceeds `MAX_TRACKED_ADDRESSES`
the slot is cleared and the error string is put in the response; when it
is between 1 and the maximum the entries are stored; and no frame ever
leaves a session holding more than the maximum in either slot. -/
theorem claim_C4_amended (cfg : Config) (env : Env) (sd : StrMap) (c : ClientState)
    (msg : Frame) :
    (∀ entries, msg.trackAddresses = some entries →
      (cfg.maxTrackedAddresses < (buildAddressMap entries).length →
        (handleMessage cfg env sd c msg).client.trackAddresses = none ∧
        (Resp.keys (handleMessage cfg env sd c msg).response).contains
          "track-addresses-error" = true) ∧
      (0 < (buildAddressMap entries).length →
        (buildAddressMap entries).length ≤ cfg.maxTrackedAddresses →
        (handleMessage cfg env sd c msg).client.trackAddresses =
          some (buildAddressMap entries))) ∧
    (∀ entries, msg.trackScriptpubkeys = some entries →
      (cfg.maxTrackedAddresses < (buildSpkList entries).length →
        (handleMessage cfg env sd c msg).client.trackScriptpubkeys = none ∧
        (Resp.keys (handleMessage cfg env sd c msg).response).contains
          "track-scriptpubkeys-error" = true) ∧
      (0 < (buildSpkList entries).length →
        (buildSpkList entries).length ≤ cfg.maxTrackedAddresses →
        (handleMessage cfg env sd c msg).client.trackScriptpubkeys =
          some (buildSpkList entries))) ∧
    (sessionBounded cfg c → sessionBounded cfg (handleMessage cfg env sd c msg).client) := by
  refine ⟨?_, ?_, ?_⟩
  · intro entries h
    constructor
    · intro hover
      rw [hm_trackAddresses_some cfg env sd c msg entries h]
      rw [hm_addrError cfg env sd c msg entries h]
      rw [if_pos hover]
      simp [hover]
    · intro hpos hle
      rw [hm_trackAddresses_some cfg env sd c msg entries h]
      rw [if_neg (by omega), if_pos hpos]
  · intro entries h
    constructor
    · intro hover
      rw [hm_trackScriptpubkeys_some cfg env sd c msg entries h]
      rw [hm_spkError cfg env sd c msg entries h]
      rw [if_pos hover]
      simp [hover]
    · intro hpos hle
      rw [hm_trackScriptpubkeys_some cfg env sd c msg entries h]
      rw [if_neg (by omega), if_pos hpos]
  · intro hb
    constructor
    · intro m hm
      cases hta : msg.trackAddresses with
      | none =>
        rw [hm_trackAddresses_none cfg env sd c msg hta] at hm
        exact hb.1 m hm
      | some entries =>
        rw [hm_trackAddresses_some cfg env sd c msg entries hta] at hm
        by_cases ho : cfg.maxTrackedAddresses < (buildAddressMap entries).length
        · rw [if_pos ho] at hm
          cases hm
        · rw [if_neg ho] at hm
          split_ifs at hm
          injection hm with hm
          subst hm
          omega
    · intro l hl
      cases hts : msg.trackScriptpubkeys with
      | none =>
        rw [hm_trackScriptpubkeys_none cfg env sd c msg hts] at hl
        exact hb.2 l hl
      | some entries =>
        rw [hm_trackScriptpubkeys_some cfg env sd c msg entries hts] at hl
        by_cases ho : cfg.maxTrackedAddresses < (buildSpkList entries).length
        · rw [if_pos ho] at hl
          cases hl
        · rw [if_neg ho] at hl
          split_ifs at hl
          injection hl with hl
          subst hl
          omega

set_option maxRecDepth 40000 in
/-- Witness for the amended claim C4: with a maximum of 2, three distinct
valid addresses are rejected with the error and two are stored; two
duplicate-free valid scriptpubkeys are stored and three are rejected. -/
theorem claim_C4_amended_witness :
    ((handleMessage ⟨2, 8⟩ envEmpty [] freshClient
        (addressesFrame ["bc1qqqqqqqqqq", "bc1qqqqqqqqqz", "bc1qqqqqqqqqy"])).client.trackAddresses
      = none ∧
     (Resp.keys (handleMessage ⟨2, 8⟩ envEmpty [] freshClient
        (addressesFrame ["bc1qqqqqqqqqq", "bc1qqqqqqqqqz", "bc1qqqqqqqqqy"])).response).contains
        "track-addresses-error" = true) ∧
    (handleMessage ⟨2, 8⟩ envEmpty [] freshClient
        (addressesFrame ["bc1qqqqqqqqqq", "bc1qqqqqqqqqz"])).client.trackAddresses =
      some [("bc1qqqqqqqqqq", "bc1qqqqqqqqqq"), ("bc1qqqqqqqqqz", "bc1qqqqqqqqqz")] ∧
    (handleMessage ⟨2, 8⟩ envEmpty [] freshClient
        (scriptpubkeysFrame ["AB", "CD", "EF"])).client.trackScriptpubkeys = none ∧
    (handleMessage ⟨2, 8⟩ envEmpty [] freshClient
        (scriptpubkeysFrame ["AB", "CD"])).client.trackScriptpubkeys = some ["ab", "cd"] ∧
    sessionBounded ⟨2, 8⟩ (handleMessage ⟨2, 8⟩ envEmpty [] freshClient
        (addressesFrame ["bc1qqqqqqqqqq", "bc1qqqqqqqqqz"])).client := by
  refine ⟨⟨?_, ?_⟩, ?_, ?_, ?_, ?_⟩
  · exact (((claim_C4_amended ⟨2, 8⟩ envEmpty [] freshClient
      (addressesFrame ["bc1qqqqqqqqqq", "bc1qqqqqqqqqz", "bc1qqqqqqqqqy"])).1 _ rfl).1
      (by decide)).1
  · exact (((claim_C4_amended ⟨2, 8⟩ envEmpty [] freshClient
      (addressesFrame ["bc1qqqqqqqqqq", "bc1qqqqqqqqqz", "bc1qqqqqqqqqy"])).1 _ rfl).1
      (by decide)).2
  · exact (((claim_C4_amended ⟨2, 8⟩ envEmpty [] freshClient
      (addressesFrame ["bc1qqqqqqqqqq", "bc1qqqqqqqqqz"])).1 _ rfl).2
      (by decide) (by decide))
  · exact (((claim_C4_amended ⟨2, 8⟩ envEmpty [] freshClient
      (scriptpubkeysFrame ["AB", "CD", "EF"])).2.1 _ rfl).1 (by decide)).1
  · exact (((claim_C4_amended ⟨2, 8⟩ envEmpty [] freshClient
      (scriptpubkeysFrame ["AB", "CD"])).2.1 _ rfl).2 (by decide) (by decide))
  · refine (claim_C4_amended ⟨2, 8⟩ envEmpty [] freshClient
      (addressesFrame ["bc1qqqqqqqqqq", "bc1qqqqqqqqqz"])).2.2 ⟨?_, ?_⟩
    · intro m hm
      simp [freshClient] at hm
    · intro l hl
      simp [freshClient] at hl



/-- Claim C10: entries that fail validation are dropped silently (the
whole handler result is the same as for the pre-filtered frame); duplicate
raw entries collapse into one map key (the map's keys are distinct, and
membership is exactly raw-entry membership with the canonical value), so
the limit comparison counts distinct valid entries; a frame within that
bound emits no error; and an all-invalid frame clears the slot without an
error. -/
theorem claim_C10_dedup_and_silent_drop (cfg : Config) (env : Env) (sd : StrMap)
    (c : ClientState) (entries : List String) :
    handleMessage cfg env sd c (addressesFrame entries) =
      handleMessage cfg env sd c
        (addressesFrame (entries.filter fun a => (testAddress a).isSome)) ∧
    (buildAddressMap entries).Pairwise (fun p q => p.1 ≠ q.1) ∧
    (∀ k v : String, (k, v) ∈ buildAddressMap entries ↔ k ∈ entries ∧ testAddress k = some v) ∧
    ((buildAddressMap entries).length ≤ cfg.maxTrackedAddresses →
      (Resp.keys (handleMessage cfg env sd c (addressesFrame entries)).response).contains
        "track-addresses-error" = false) ∧
    ((∀ a ∈ entries, testAddress a = none) →
      (handleMessage cfg env sd c (addressesFrame entries)).client.trackAddresses = none ∧
      (Resp.keys (handleMessage cfg env sd c (addressesFrame entries)).response).contains
        "track-addresses-error" = false) := by
  have hbam : buildAddressMap (entries.filter fun a => (testAddress a).isSome) =
      buildAddressMap entries := bamGo_filter entries []
  refine ⟨?_, ?_, ?_, ?_, ?_⟩
  · simp [handleMessage, addressesFrame, applyWant, seedResponse, applyInit, applyPing,
      applyTrackAddresses, applyTrackScriptpubkeys, hbam]
  · exact (bamGo_inv entries [] bamInv_nil).1
  · intro k v
    have := mem_bamGo entries [] bamInv_nil (k := k) (v := v)
    unfold buildAddressMap
    rw [this]
    simp
  · intro hle
    rw [hm_addrError cfg env sd c _ entries rfl]
    simp
    omega
  · intro hinv
    have hnil : buildAddressMap entries = [] := bamGo_all_invalid entries [] hinv
    constructor
    · rw [hm_trackAddresses_some cfg env sd c _ entries rfl, hnil]
      simp
    · rw [hm_addrError cfg env sd c _ entries rfl, hnil]
      simp

set_option maxRecDepth 40000 in
/-- Witness for claim C10: three raw entries of which one is invalid and
two are duplicates stay within a maximum of 1 without an error, and an
all-invalid list clears the slot silently. -/
theorem claim_C10_dedup_and_silent_drop_witness :
    (Resp.keys (handleMessage ⟨1, 8⟩ envEmpty [] freshClient
        (addressesFrame ["bc1qqqqqqqqqq", "bc1qqqqqqqqqq", "no"])).response).contains
      "track-addresses-error" = false ∧
    (handleMessage ⟨1, 8⟩ envEmpty [] freshClient
        (addressesFrame ["no", "bad"])).client.trackAddresses = none ∧
    (Resp.keys (handleMessage ⟨1, 8⟩ envEmpty [] freshClient
        (addressesFrame ["no", "bad"])).response).contains "track-addresses-error" = false := by
  refine ⟨?_, ?_, ?_⟩
  · exact (claim_C10_dedup_and_silent_drop ⟨1, 8⟩ envEmpty [] freshClient
      ["bc1qqqqqqqqqq", "bc1qqqqqqqqqq", "no"]).2.2.2.1 (by decide)
  · exact ((claim_C10_dedup_and_silent_drop ⟨1, 8⟩ envEmpty [] freshClient
      ["no", "bad"]).2.2.2.2 (by decide)).1
  · exact ((claim_C10_dedup_and_silent_drop ⟨1, 8⟩ envEmpty [] freshClient
      ["no", "bad"]).2.2.2.2 (by decide)).2


/-- Claim C6, amended: during new-block fan-out, a client tracking index
`i` while the engine is in sync receives `projected-block-transactions`
*provided additionally that the projected block at `i` exists with a
non-empty transaction list*: the delta when `2·|delta.added| ≤
|transactions|` (the source compares `added.length >
transactions.length / 2` on exact integer halves), else the compressed
full list. -/
theorem claim_C6_amended (inSync : Bool) (mBlockDeltas : List (Option PBlockDelta))
    (mBlocksWithTransactions : List (Option ProjectedBlock)) (compressTx : Json → Json)
    (slot : Option Nat) (index : Nat) (d : PBlockDelta) (pb : ProjectedBlock)
    (hslot : slot = some index) (hsync : inSync = true)
    (hd : jsIndex mBlockDeltas index = some d)
    (hpb : jsIndex mBlocksWithTransactions index = some pb)
    (hne : pb.transactions ≠ []) :
    newBlockProjectedBranch inSync mBlockDeltas mBlocksWithTransactions compressTx slot =
      some ("projected-block-transactions",
        if 2 * d.added.length ≤ pb.transactions.length then
          (Json.obj [("index", .num index), ("delta", d.toJson)]).stringify
        else
          (Json.obj [("index", .num index),
                     ("blockTransactions", .arr (pb.transactions.map compressTx))]).stringify) := by
  subst hslot hsync
  unfold newBlockProjectedBranch
  dsimp only
  rw [hd, hpb]
  dsimp only
  have hne0 : pb.transactions.length ≠ 0 := by
    simpa using hne
  by_cases hhalf : 2 * d.added.length ≤ pb.transactions.length
  · rw [if_pos hne0,
      if_neg (show ¬(2 * d.added.length > pb.transactions.length) from by omega),
      if_pos hhalf, if_pos rfl]
  · rw [if_pos hne0,
      if_pos (show 2 * d.added.length > pb.transactions.length from by omega),
      if_neg hhalf, if_pos rfl]

/-- Witness for the amended claim C6 at a concrete input: one transaction,
empty delta, so the delta payload is sent. -/
theorem claim_C6_amended_witness :
    newBlockProjectedBranch true [some ⟨[], [], []⟩] [some ⟨[Json.null]⟩] id (some 0) =
      some ("projected-block-transactions",
        (Json.obj [("index", .num 0), ("delta", (⟨[], [], []⟩ : PBlockDelta).toJson)]).stringify) := by
  have h := claim_C6_amended true [some ⟨[], [], []⟩] [some ⟨[Json.null]⟩] id (some 0) 0
    ⟨[], [], []⟩ ⟨[Json.null]⟩ rfl rfl rfl rfl (by simp)
  simpa using h

theorem innerFind_innerSet_same {m : InnerOutMap} {k : Nat} {v : OutEntry} :
    innerFind (innerSet m k v) k = some v := by
  induction m with
  | nil => simp [innerSet, innerFind]
  | cons kv rest ih =>
    unfold innerSet
    by_cases hk : kv.1 = k
    · rw [if_pos hk]
      simp [innerFind]
    · rw [if_neg hk]
      unfold innerFind
      rw [if_neg hk]
      exact ih

theorem innerFind_innerSet_other {m : InnerOutMap} {k k' : Nat} {v : OutEntry} (h : k' ≠ k) :
    innerFind (innerSet m k v) k' = innerFind m k' := by
  induction m with
  | nil =>
    simp [innerSet, innerFind]
    intro hc
    exact absurd hc.symm h
  | cons kv rest ih =>
    unfold innerSet
    by_cases hk : kv.1 = k
    · rw [if_pos hk]
      unfold innerFind
      rw [if_neg (by omega), if_neg (by omega)]
    · rw [if_neg hk]
      unfold innerFind
      by_cases hk' : kv.1 = k'
      · rw [if_pos hk', if_pos hk']
      · rw [if_neg hk', if_neg hk']
        exact ih

theorem outLookup_set_same {m : OutMap} {src : String} {vout : Nat} {e : OutEntry} :
    outLookup (setOutspend m src vout e) src vout = some e := by
  induction m with
  | nil => simp [setOutspend, outLookup, outerFind, innerFind]
  | cons kv rest ih =>
    unfold setOutspend
    by_cases hk : kv.1 = src
    · rw [if_pos hk]
      unfold outLookup outerFind
      rw [if_pos rfl]
      exact innerFind_innerSet_same
    · rw [if_neg hk]
      unfold outLookup outerFind
      rw [if_neg hk]
      exact ih

theorem outLookup_set_other {m : OutMap} {src src' : String} {vout vout' : Nat} {e : OutEntry}
    (h : src' ≠ src ∨ vout' ≠ vout) :
    outLookup (setOutspend m src vout e) src' vout' = outLookup m src' vout' := by
  induction m with
  | nil =>
    by_cases hs : src = src'
    · have hv : vout' ≠ vout := by
        subst hs
        exact h.resolve_left (fun hne => hne rfl)
      unfold setOutspend outLookup outerFind
      rw [if_pos hs]
      unfold innerFind
      rw [if_neg (fun hc => hv hc.symm)]
      rfl
    · unfold setOutspend outLookup outerFind
      rw [if_neg hs]
      rfl
  | cons kv rest ih =>
    unfold setOutspend
    by_cases hk : kv.1 = src
    · rw [if_pos hk]
      by_cases hs : src = src'
      · have hv : vout' ≠ vout := by
          subst hs
          exact h.resolve_left (fun hne => hne rfl)
        unfold outLookup outerFind
        rw [if_pos hs, if_pos (hk.trans hs)]
        exact innerFind_innerSet_other hv
      · unfold outLookup outerFind
        rw [if_neg hs, if_neg (fun hc => hs (hk ▸ hc))]
    · rw [if_neg hk]
      by_cases hk' : kv.1 = src'
      · unfold outLookup outerFind
        rw [if_pos hk', if_pos hk']
      · unfold outLookup outerFind
        rw [if_neg hk', if_neg hk']
        exact ih

theorem addVin_lookup (tr : List String) (btxid t : String) (v : Nat)
    (hT : tr.contains t = true) :
    ∀ (vins : List TxVin) (m : OutMap) (idx : Nat),
      outLookup (addVinSpends tr btxid m vins idx) t v =
        (match lastSpendIdx t v vins idx with
         | some j => some ⟨j, btxid⟩
         | none => outLookup m t v) := by
  intro vins
  induction vins with
  | nil => intro m idx; rfl
  | cons w rest ih =>
    intro m idx
    unfold addVinSpends lastSpendIdx
    rw [ih]
    cases hrest : lastSpendIdx t v rest (idx + 1) with
    | some j => rfl
    | none =>
      by_cases hw : w.txid = t ∧ w.vout = v
      · rw [if_pos hw]
        rw [if_pos (by rw [hw.1]; exact hT)]
        rw [hw.1, hw.2]
        exact outLookup_set_same
      · rw [if_neg hw]
        by_cases htr : tr.contains w.txid = true
        · rw [if_pos htr]
          apply outLookup_set_other
          by_cases h1 : w.txid = t
          · exact Or.inr fun hc => hw ⟨h1, hc.symm⟩
          · exact Or.inl fun hc => h1 hc.symm
        · rw [if_neg htr]

theorem build_lookup (tr : List String) (t : String) (v : Nat) (hT : tr.contains t = true) :
    ∀ (txs : List NewTx) (m : OutMap),
      outLookup (txs.foldl (fun m tx => addVinSpends tr tx.txid m tx.vin 0) m) t v =
        (match lastSpendInTxs t v txs with
         | some e => some e
         | none => outLookup m t v) := by
  intro txs
  induction txs with
  | nil => intro m; rfl
  | cons tx rest ih =>
    intro m
    rw [List.foldl_cons, ih, lastSpendInTxs]
    cases hrest : lastSpendInTxs t v rest with
    | some e => rfl
    | none =>
      rw [addVin_lookup tr tx.txid t v hT]
      cases hidx : lastSpendIdx t v tx.vin 0 <;> rfl

theorem lastSpendIdx_sound (t : String) (v : Nat) :
    ∀ (vins : List TxVin) (idx j : Nat), lastSpendIdx t v vins idx = some j →
      ∃ j0, j = idx + j0 ∧ vins.get? j0 = some ⟨t, v⟩ := by
  intro vins
  induction vins with
  | nil => intro idx j h; simp [lastSpendIdx] at h
  | cons w rest ih =>
    intro idx j h
    unfold lastSpendIdx at h
    cases hrest : lastSpendIdx t v rest (idx + 1) with
    | some j' =>
      rw [hrest] at h
      injection h with h
      obtain ⟨j0, hj0, hget⟩ := ih (idx + 1) j' hrest
      exact ⟨j0 + 1, by omega, by simpa using hget⟩
    | none =>
      rw [hrest] at h
      by_cases hw : w.txid = t ∧ w.vout = v
      · rw [if_pos hw] at h
        injection h with h
        refine ⟨0, by omega, ?_⟩
        simp
        obtain ⟨hw1, hw2⟩ := hw
        cases w
        simp_all
      · rw [if_neg hw] at h
        cases h

theorem lastSpendIdx_complete (t : String) (v : Nat) :
    ∀ (vins : List TxVin) (idx j0 : Nat), vins.get? j0 = some ⟨t, v⟩ →
      lastSpendIdx t v vins idx ≠ none := by
  intro vins
  induction vins with
  | nil => intro idx j0 h; simp at h
  | cons w rest ih =>
    intro idx j0 h
    unfold lastSpendIdx
    cases hrest : lastSpendIdx t v rest (idx + 1) with
    | some j' => simp
    | none =>
      cases j0 with
      | zero =>
        simp at h
        rw [if_pos (by rw [h]; exact ⟨rfl, rfl⟩)]
        simp
      | succ j0' =>
        simp at h
        exact absurd hrest (ih (idx + 1) j0' (by simpa using h))

theorem lastSpendInTxs_sound (t : String) (v : Nat) :
    ∀ (txs : List NewTx) (e : OutEntry), lastSpendInTxs t v txs = some e →
      ∃ b ∈ txs, ∃ j, b.vin.get? j = some ⟨t, v⟩ ∧ e = ⟨j, b.txid⟩ := by
  intro txs
  induction txs with
  | nil => intro e h; simp [lastSpendInTxs] at h
  | cons tx rest ih =>
    intro e h
    unfold lastSpendInTxs at h
    cases hrest : lastSpendInTxs t v rest with
    | some e' =>
      rw [hrest] at h
      injection h with h
      subst h
      obtain ⟨b, hb, j, hj, he⟩ := ih e' hrest
      exact ⟨b, List.mem_cons_of_mem _ hb, j, hj, he⟩
    | none =>
      rw [hrest] at h
      cases hidx : lastSpendIdx t v tx.vin 0 with
      | some j =>
        rw [hidx] at h
        injection h with h
        obtain ⟨j0, hj0, hget⟩ := lastSpendIdx_sound t v tx.vin 0 j hidx
        exact ⟨tx, List.mem_cons_self _ _, j0, hget, by rw [← h, hj0]; simp⟩
      | none =>
        rw [hidx] at h
        cases h

theorem lastSpendInTxs_complete (t : String) (v : Nat) :
    ∀ (txs : List NewTx) (b : NewTx) (i : Nat), b ∈ txs → b.vin.get? i = some ⟨t, v⟩ →
      lastSpendInTxs t v txs ≠ none := by
  intro txs
  induction txs with
  | nil => intro b i hb; simp at hb
  | cons tx rest ih =>
    intro b i hb hget
    unfold lastSpendInTxs
    cases hrest : lastSpendInTxs t v rest with
    | some e => simp
    | none =>
      rcases List.mem_cons.mp hb with rfl | hb'
      · cases hidx : lastSpendIdx t v b.vin 0 with
        | some j => simp
        | none => exact absurd hidx (by simpa using lastSpendIdx_complete t v b.vin 0 i hget)
      · exact absurd hrest (ih b i hb' hget)

theorem setOutspend_keys (P : String → Prop) (src : String) (vout : Nat) (e : OutEntry) :
    ∀ (m : OutMap), (∀ kv ∈ m, P kv.1) → P src →
      ∀ kv ∈ setOutspend m src vout e, P kv.1 := by
  intro m
  induction m with
  | nil => intro _ hs kv hkv; simp [setOutspend] at hkv; rw [hkv]; exact hs
  | cons q rest ih =>
    intro hm hs kv hkv
    unfold setOutspend at hkv
    by_cases hq : q.1 = src
    · rw [if_pos hq] at hkv
      rcases List.mem_cons.mp hkv with rfl | h'
      · exact hs
      · exact hm kv (List.mem_cons_of_mem _ h')
    · rw [if_neg hq] at hkv
      rcases List.mem_cons.mp hkv with rfl | h'
      · exact hm kv (List.mem_cons_self _ _)
      · exact ih (fun kv h => hm kv (List.mem_cons_of_mem _ h)) hs kv h'

theorem addVinSpends_keys (tr : List String) (btxid : String) :
    ∀ (vins : List TxVin) (m : OutMap) (idx : Nat),
      (∀ kv ∈ m, tr.contains kv.1 = true) →
      ∀ kv ∈ addVinSpends tr btxid m vins idx, tr.contains kv.1 = true := by
  intro vins
  induction vins with
  | nil => intro m idx hm; exact hm
  | cons w rest ih =>
    intro m idx hm
    unfold addVinSpends
    apply ih
    by_cases hw : tr.contains w.txid = true
    · rw [if_pos hw]
      exact setOutspend_keys (fun s => tr.contains s = true) w.txid w.vout ⟨idx, btxid⟩ m hm hw
    · rw [if_neg hw]
      exact hm

theorem buildOutspendCache_keys (tr : List String) (txs : List NewTx) :
    ∀ kv ∈ buildOutspendCache tr txs, tr.contains kv.1 = true := by
  unfold buildOutspendCache
  by_cases he : tr.isEmpty = true
  · rw [if_pos he]; intro kv hkv; cases hkv
  · rw [if_neg he]
    have main : ∀ (l : List NewTx) (m : OutMap), (∀ kv ∈ m, tr.contains kv.1 = true) →
        ∀ kv ∈ l.foldl (fun m tx => addVinSpends tr tx.txid m tx.vin 0) m,
          tr.contains kv.1 = true := by
      intro l
      induction l with
      | nil => intro m hm; exact hm
      | cons tx rest ih =>
        intro m hm
        rw [List.foldl_cons]
        exact ih _ (addVinSpends_keys tr tx.txid tx.vin m 0 hm)
    exact main txs [] (fun kv hkv => absurd hkv (List.not_mem_nil kv))

theorem innerFind_ne_nil (m : InnerOutMap) (k : Nat) (e : OutEntry)
    (h : innerFind m k = some e) : m.length ≠ 0 := by
  cases m with
  | nil => simp [innerFind] at h
  | cons q rest => simp

theorem lastSpend_of_unique (t : String) (v : Nat) (txs : List NewTx) (b : NewTx) (i : Nat)
    (hb : b ∈ txs) (hvin : b.vin.get? i = some ⟨t, v⟩)
    (huniq : ∀ b' ∈ txs, ∀ (j : Nat) (w : TxVin), b'.vin.get? j = some w →
      w.txid = t → w.vout = v → b' = b ∧ j = i) :
    lastSpendInTxs t v txs = some ⟨i, b.txid⟩ := by
  cases hres : lastSpendInTxs t v txs with
  | none => exact absurd hres (lastSpendInTxs_complete t v txs b i hb hvin)
  | some e =>
    obtain ⟨b', hb', j, hj, he⟩ := lastSpendInTxs_sound t v txs e hres
    obtain ⟨hbb, hji⟩ := huniq b' hb' j ⟨t, v⟩ hj rfl rfl
    rw [he, hbb, hji]

/-- Claim C7 (amended): during mempool-delta fan-out, every key of the
precomputed outspend index is a txid tracked by some client via
`track-tx`; and for every client with `trackTx = t`, if exactly one input
of the newly-added transactions spends output `v` of `t` — input `i` of
transaction `b` — then the index's slice for `t` maps `v` to
`\x7bvin: i, txid: b.txid\x7d` and the client's response carries
`utxoSpent` serialized from that slice. -/
theorem claim_C7_amended (clients : List ClientState) (cl : ClientState)
    (t : String) (v : Nat) (newTxs : List NewTx) (b : NewTx) (i : Nat)
    (hcl : cl ∈ clients) (ht : cl.trackTx = some t)
    (hb : b ∈ newTxs) (hvin : b.vin.get? i = some ⟨t, v⟩)
    (huniq : ∀ b' ∈ newTxs, ∀ (j : Nat) (w : TxVin), b'.vin.get? j = some w →
      w.txid = t → w.vout = v → b' = b ∧ j = i) :
    (∀ kv ∈ buildOutspendCache (collectTrackedTxs clients) newTxs,
      (collectTrackedTxs clients).contains kv.1 = true) ∧
    ∃ im, outerFind (buildOutspendCache (collectTrackedTxs clients) newTxs) t = some im ∧
      innerFind im v = some ⟨i, b.txid⟩ ∧
      utxoSpentResponse (buildOutspendCache (collectTrackedTxs clients) newTxs) cl =
        some (stringifyOutspends im) := by
  have hmem : t ∈ collectTrackedTxs clients := List.mem_filterMap.mpr ⟨cl, hcl, ht⟩
  have hT : (collectTrackedTxs clients).contains t = true := List.elem_iff.mpr hmem
  refine ⟨buildOutspendCache_keys _ _, ?_⟩
  have hcache : buildOutspendCache (collectTrackedTxs clients) newTxs =
      newTxs.foldl (fun m tx => addVinSpends (collectTrackedTxs clients) tx.txid m tx.vin 0)
        [] := by
    unfold buildOutspendCache
    rw [if_neg (by cases hcase : (collectTrackedTxs clients) with
      | nil => rw [hcase] at hmem; cases hmem
      | cons a l => simp [hcase])]
  have hlook : outLookup (buildOutspendCache (collectTrackedTxs clients) newTxs) t v =
      some ⟨i, b.txid⟩ := by
    rw [hcache, build_lookup (collectTrackedTxs clients) t v hT newTxs [],
      lastSpend_of_unique t v newTxs b i hb hvin huniq]
  unfold outLookup at hlook
  cases hout : outerFind (buildOutspendCache (collectTrackedTxs clients) newTxs) t with
  | none => rw [hout] at hlook; cases hlook
  | some im =>
    simp only [hout] at hlook
    refine ⟨im, rfl, hlook, ?_⟩
    unfold utxoSpentResponse
    rw [ht]
    dsimp only
    rw [hout]
    dsimp only
    rw [if_pos (innerFind_ne_nil im v _ hlook)]

theorem claim_C7_amended_witness :
    (∀ kv ∈ buildOutspendCache (collectTrackedTxs [c7client]) [c7tx],
      (collectTrackedTxs [c7client]).contains kv.1 = true) ∧
    ∃ im, outerFind (buildOutspendCache (collectTrackedTxs [c7client]) [c7tx]) "aa" = some im ∧
      innerFind im 0 = some ⟨0, c7tx.txid⟩ ∧
      utxoSpentResponse (buildOutspendCache (collectTrackedTxs [c7client]) [c7tx]) c7client =
        some (stringifyOutspends im) :=
  claim_C7_amended [c7client] c7client "aa" 0 [c7tx] c7tx 0
    (List.mem_singleton.mpr rfl) rfl (List.mem_singleton.mpr rfl) rfl
    (by
      intro b' hb' j w hj h1 h2
      rw [List.mem_singleton.mp hb'] at hj ⊢
      cases j with
      | zero =>
        refine ⟨rfl, rfl⟩
      | succ j' => simp [c7tx] at hj)

theorem parseValue_nil : ∀ f, parseValue f [] = none := by
  intro f; cases f <;> rfl

theorem parseElems_nil : ∀ f, parseElems f [] = none := by
  intro f
  cases f with
  | zero => rfl
  | succ f' => simp [parseElems, parseValue_nil]

theorem parseMembers_nil : ∀ f, parseMembers f [] = none := by
  intro f; cases f <;> rfl

theorem skipWs_append_nil (xs ys : List Char) (h : skipWs xs = []) :
    skipWs (xs ++ ys) = skipWs ys := by
  simp only [skipWs] at h ⊢
  simp [List.dropWhile_append, h]

theorem skipWs_append_cons (xs ys : List Char) (c : Char) (cs : List Char)
    (h : skipWs xs = c :: cs) :
    skipWs (xs ++ ys) = c :: (cs ++ ys) := by
  simp only [skipWs] at h ⊢
  simp [List.dropWhile_append, h]

theorem ws_not_numExt (c : Char) (h : isWsChar c = true) : numExt c = false := by
  simp only [isWsChar, Bool.or_eq_true, decide_eq_true_eq] at h
  rcases h with ((rfl | rfl) | rfl) | rfl <;> decide

theorem noExt_frac (ys : List Char) (h : noExtHead ys) : parseFracPart ys = ys := by
  cases ys with
  | nil => rfl
  | cons c cs =>
    simp only [noExtHead] at h
    have hc : ¬c = '.' := by intro hc; subst hc; simp [numExt] at h
    simp only [parseFracPart, if_neg hc]

theorem noExt_exp (ys : List Char) (h : noExtHead ys) : parseExpPart ys = ys := by
  cases ys with
  | nil => rfl
  | cons c cs =>
    simp only [noExtHead] at h
    have hc : ¬(c = 'e' || c = 'E') = true := by
      simp only [Bool.or_eq_true, decide_eq_true_eq]
      rintro (rfl | rfl) <;> simp [numExt] at h
    simp only [parseExpPart, if_neg hc]

theorem noExt_digits (ys : List Char) (h : noExtHead ys) :
    ys.dropWhile isDigitCh = ys := by
  cases ys with
  | nil => rfl
  | cons c cs =>
    simp only [noExtHead] at h
    rw [List.dropWhile_cons_of_neg]
    intro hc
    simp [numExt, hc] at h

theorem restOk_of_skip_nil (r ys : List Char) (hr : skipWs r = [])
    (hy : noExtHead ys) : restOk r ys := by
  cases r with
  | nil => exact hy
  | cons c t =>
    simp only [restOk]
    simp only [skipWs] at hr
    by_cases hc : isWsChar c = true
    · exact ws_not_numExt c hc
    · rw [List.dropWhile_cons_of_neg (by simpa using hc)] at hr
      cases hr

theorem restOk_of_skip_cons (r ys : List Char) (d : Char) (cs1 : List Char)
    (hr : skipWs r = d :: cs1) (hd : numExt d = false) : restOk r ys := by
  cases r with
  | nil => simp [skipWs] at hr
  | cons c t =>
    simp only [restOk]
    by_cases hc : isWsChar c = true
    · exact ws_not_numExt c hc
    · simp only [skipWs] at hr
      rw [List.dropWhile_cons_of_neg (by simpa using hc)] at hr
      injection hr with h1 h2
      rw [h1]; exact hd

theorem expectChars_append : ∀ (es cs rest ys : List Char),
    expectChars cs es = some rest → expectChars (cs ++ ys) es = some (rest ++ ys) := by
  intro es
  induction es with
  | nil =>
    intro cs rest ys h
    simp only [expectChars] at h ⊢
    injection h with h; rw [h]
  | cons e es ih =>
    intro cs rest ys h
    cases cs with
    | nil => simp [expectChars] at h
    | cons c t =>
      simp only [expectChars] at h ⊢
      by_cases hc : c = e
      · rw [if_pos hc] at h ⊢; exact ih t rest ys h
      · rw [if_neg hc] at h; cases h

theorem psb_append_bounded : ∀ (n : Nat) (cs : List Char), cs.length ≤ n →
    ∀ (rest ys : List Char), parseStringBody cs = some rest →
      parseStringBody (cs ++ ys) = some (rest ++ ys) := by
  intro n
  induction n with
  | zero =>
    intro cs hn rest ys h
    have : cs = [] := List.eq_nil_of_length_eq_zero (Nat.le_zero.mp hn)
    subst this; simp [parseStringBody] at h
  | succ n ih =>
    intro cs hn rest ys h
    cases cs with
    | nil => simp [parseStringBody] at h
    | cons c t =>
      rw [List.cons_append]
      unfold parseStringBody at h ⊢
      by_cases hq : c = '"'
      · rw [if_pos hq] at h ⊢
        injection h with h; rw [h]
      · rw [if_neg hq] at h ⊢
        by_cases hb : c = '\\'
        · rw [if_pos hb] at h ⊢
          cases t with
          | nil => cases h
          | cons e t1 =>
            simp only [List.cons_append]
            dsimp only at h
            by_cases he : simpleEsc e = true
            · rw [if_pos he] at h ⊢
              exact ih t1 (by simp at hn; omega) rest ys h
            · rw [if_neg he] at h ⊢
              by_cases hu : e = 'u'
              · rw [if_pos hu] at h ⊢
                match t1, h with
                | h1 :: h2 :: h3 :: h4 :: t2, h =>
                  simp only [List.cons_append]
                  dsimp only at h
                  by_cases hh : (isHexCh h1 && isHexCh h2 && isHexCh h3 && isHexCh h4) = true
                  · rw [if_pos hh] at h ⊢
                    exact ih t2 (by simp at hn; omega) rest ys h
                  · rw [if_neg hh] at h; cases h
              · rw [if_neg hu] at h; cases h
        · rw [if_neg hb] at h ⊢
          by_cases hp : 0x20 ≤ c.toNat
          · rw [if_pos hp] at h ⊢
            exact ih t (by simp at hn; omega) rest ys h
          · rw [if_neg hp] at h; cases h

theorem parseStringBody_append (cs rest ys : List Char)
    (h : parseStringBody cs = some rest) :
    parseStringBody (cs ++ ys) = some (rest ++ ys) :=
  psb_append_bounded cs.length cs (Nat.le_refl _) rest ys h

theorem parseExpPart_eq (c : Char) (cs : List Char) :
    parseExpPart (c :: cs) =
      if (c = 'e' || c = 'E') = true then
        match expBody cs with
        | d :: _ => if isDigitCh d then (expBody cs).dropWhile isDigitCh else c :: cs
        | [] => c :: cs
      else c :: cs := by
  cases cs <;> rfl

theorem dropWhile_append_nil (p : Char → Bool) (xs ys : List Char)
    (h : xs.dropWhile p = []) : (xs ++ ys).dropWhile p = ys.dropWhile p := by
  simp [List.dropWhile_append, h]

theorem dropWhile_append_cons (p : Char → Bool) (xs ys : List Char) (c : Char)
    (cs : List Char) (h : xs.dropWhile p = c :: cs) :
    (xs ++ ys).dropWhile p = c :: cs ++ ys := by
  simp [List.dropWhile_append, h]

theorem numExt_of_expHead (c : Char) (hc : (c = 'e' || c = 'E') = true) :
    numExt c = true := by
  simp only [Bool.or_eq_true, decide_eq_true_eq] at hc
  rcases hc with rfl | rfl <;> decide

theorem pe_append : ∀ (R ys : List Char), restOk (parseExpPart R) ys →
    parseExpPart (R ++ ys) = parseExpPart R ++ ys := by
  intro R ys h
  cases R with
  | nil =>
    rw [List.nil_append]
    exact noExt_exp ys h
  | cons c cs =>
    by_cases hc : (c = 'e' || c = 'E') = true
    case neg =>
      have hR : parseExpPart (c :: cs) = c :: cs := by rw [parseExpPart_eq, if_neg hc]
      rw [hR, List.cons_append, parseExpPart_eq, if_neg hc]
    case pos =>
      have hcn : numExt c = true := numExt_of_expHead c hc
      cases hB : expBody cs with
      | nil =>
        have hR : parseExpPart (c :: cs) = c :: cs := by
          rw [parseExpPart_eq, if_pos hc, hB]
        rw [hR] at h
        simp only [restOk] at h
        rw [hcn] at h; cases h
      | cons d ds =>
        have hcs : ∃ s cs1, cs = s :: cs1 := by
          cases cs with
          | nil => simp [expBody] at hB
          | cons s cs1 => exact ⟨s, cs1, rfl⟩
        obtain ⟨s, cs1, rfl⟩ := hcs
        have hB' : expBody (s :: (cs1 ++ ys)) = d :: (ds ++ ys) := by
          simp only [expBody] at hB ⊢
          by_cases hs : (s = '+' || s = '-') = true
          · rw [if_pos hs] at hB ⊢; rw [hB, List.cons_append]
          · rw [if_neg hs] at hB ⊢
            injection hB with h1 h2
            rw [h1, h2]
        by_cases hd : isDigitCh d = true
        case pos =>
          have hR : parseExpPart (c :: s :: cs1) = (d :: ds).dropWhile isDigitCh := by
            rw [parseExpPart_eq, if_pos hc]
            simp only [hB]
            rw [if_pos hd]
          have hR' : parseExpPart (c :: s :: (cs1 ++ ys)) =
              (d :: (ds ++ ys)).dropWhile isDigitCh := by
            rw [parseExpPart_eq, if_pos hc]
            simp only [hB']
            rw [if_pos hd]
          rw [hR] at h
          rw [List.cons_append, List.cons_append, hR', hR]
          cases hdw : (d :: ds).dropWhile isDigitCh with
          | nil =>
            rw [hdw] at h
            have hy : noExtHead ys := h
            rw [← List.cons_append, dropWhile_append_nil _ _ _ hdw, noExt_digits ys hy,
              List.nil_append]
          | cons q qs =>
            rw [← List.cons_append, dropWhile_append_cons _ _ _ _ _ hdw, List.cons_append]
        case neg =>
          have hR : parseExpPart (c :: s :: cs1) = c :: s :: cs1 := by
            rw [parseExpPart_eq, if_pos hc]
            simp only [hB]
            rw [if_neg (by simpa using hd)]
          rw [hR] at h
          simp only [restOk] at h
          rw [hcn] at h; cases h

theorem nt_append : ∀ (X ys : List Char), restOk (parseExpPart (parseFracPart X)) ys →
    parseExpPart (parseFracPart (X ++ ys)) = parseExpPart (parseFracPart X) ++ ys := by
  intro X ys h
  cases X with
  | nil =>
    rw [List.nil_append]
    rw [noExt_frac ys h, noExt_exp ys h]
    rfl
  | cons x xs =>
    by_cases hx : x = '.'
    case neg =>
      have hF : parseFracPart (x :: xs) = x :: xs := by
        simp only [parseFracPart, if_neg hx]
      have hF' : parseFracPart (x :: (xs ++ ys)) = x :: (xs ++ ys) := by
        simp only [parseFracPart, if_neg hx]
      rw [hF] at h
      rw [List.cons_append, hF', hF, ← List.cons_append]
      exact pe_append (x :: xs) ys h
    case pos =>
      subst hx
      cases xs with
      | nil =>
        have hc : numExt '.' = false := h
        simp [numExt] at hc
      | cons d ds =>
        by_cases hd : isDigitCh d = true
        case pos =>
          have hF : parseFracPart ('.' :: d :: ds) = (d :: ds).dropWhile isDigitCh := by
            simp only [parseFracPart, if_true]
            rw [if_pos hd]
          have hF' : parseFracPart ('.' :: d :: (ds ++ ys)) =
              (d :: (ds ++ ys)).dropWhile isDigitCh := by
            simp only [parseFracPart, if_true]
            rw [if_pos hd]
          rw [hF] at h
          rw [List.cons_append, List.cons_append, hF', hF]
          cases hdw : (d :: ds).dropWhile isDigitCh with
          | nil =>
            rw [hdw] at h
            have hy : noExtHead ys := h
            rw [← List.cons_append, dropWhile_append_nil _ _ _ hdw, noExt_digits ys hy,
              noExt_exp ys hy]
            rfl
          | cons q qs =>
            rw [hdw] at h
            rw [← List.cons_append, dropWhile_append_cons _ _ _ _ _ hdw, List.cons_append,
              ← List.cons_append]
            exact pe_append (q :: qs) ys h
        case neg =>
          have hF : parseFracPart ('.' :: d :: ds) = '.' :: d :: ds := by
            simp only [parseFracPart, if_true]
            rw [if_neg hd]
          rw [hF] at h
          have hE : parseExpPart ('.' :: d :: ds) = '.' :: d :: ds := by
            rw [parseExpPart_eq, if_neg (by decide)]
          rw [hE] at h
          have hc : numExt '.' = false := h
          simp [numExt] at hc

theorem numBody_append (cs1 rest ys : List Char) (h : numBody cs1 = some rest)
    (hok : restOk rest ys) : numBody (cs1 ++ ys) = some (rest ++ ys) := by
  cases cs1 with
  | nil => simp [numBody] at h
  | cons c cs0 =>
    rw [List.cons_append]
    simp only [numBody] at h ⊢
    by_cases h0 : c = '0'
    · rw [if_pos h0] at h ⊢
      injection h with h
      rw [nt_append cs0 ys (by rw [h]; exact hok), h]
    · rw [if_neg h0] at h ⊢
      by_cases hd : isDigitCh c = true
      · rw [if_pos hd] at h ⊢
        injection h with h
        cases hdw : cs0.dropWhile isDigitCh with
        | nil =>
          rw [hdw] at h
          have hrest : rest = [] := h.symm
          subst hrest
          have hy : noExtHead ys := hok
          rw [dropWhile_append_nil _ _ _ hdw, noExt_digits ys hy, noExt_frac ys hy,
            noExt_exp ys hy, List.nil_append]
        | cons q qs =>
          rw [hdw] at h
          rw [dropWhile_append_cons _ _ _ _ _ hdw,
            nt_append (q :: qs) ys (by rw [h]; exact hok), h]
      · rw [if_neg hd] at h; cases h

theorem parseNumber_eq (cs : List Char) :
    parseNumber cs =
      numBody (match cs with
               | c :: cs0 => if c = '-' then cs0 else c :: cs0
               | [] => []) := by
  cases cs <;> rfl

theorem parseNumber_append (cs rest ys : List Char) (h : parseNumber cs = some rest)
    (hok : restOk rest ys) : parseNumber (cs ++ ys) = some (rest ++ ys) := by
  rw [parseNumber_eq] at h
  rw [parseNumber_eq]
  cases cs with
  | nil => simp [numBody] at h
  | cons c0 cs0 =>
    rw [List.cons_append]
    dsimp only at h ⊢
    by_cases hm : c0 = '-'
    · rw [if_pos hm] at h ⊢
      exact numBody_append _ _ _ h hok
    · rw [if_neg hm] at h ⊢
      rw [← List.cons_append]
      exact numBody_append _ _ _ h hok

theorem parse_mono : ∀ f : Nat,
    (∀ f' cs r, f ≤ f' → parseValue f cs = some r → parseValue f' cs = some r) ∧
    (∀ f' cs r, f ≤ f' → parseElems f cs = some r → parseElems f' cs = some r) ∧
    (∀ f' cs r, f ≤ f' → parseMembers f cs = some r → parseMembers f' cs = some r) := by
  intro f
  induction f with
  | zero =>
    refine ⟨?_, ?_, ?_⟩ <;> intro f' cs r _ h <;>
      simp [parseValue, parseElems, parseMembers] at h
  | succ f ih =>
    obtain ⟨ihV, ihE, ihM⟩ := ih
    refine ⟨?_, ?_, ?_⟩
    · intro f' cs r hle h
      cases f' with
      | zero => omega
      | succ f2 =>
        have hf2 : f ≤ f2 := by omega
        cases cs with
        | nil => rw [parseValue_nil] at h; cases h
        | cons c cs0 =>
          rw [parseValue] at h ⊢
          by_cases hcn : c = 'n'
          · rw [if_pos hcn] at h ⊢; exact h
          · rw [if_neg hcn] at h ⊢
            by_cases hct : c = 't'
            · rw [if_pos hct] at h ⊢; exact h
            · rw [if_neg hct] at h ⊢
              by_cases hcf : c = 'f'
              · rw [if_pos hcf] at h ⊢; exact h
              · rw [if_neg hcf] at h ⊢
                by_cases hcq : c = '"'
                · rw [if_pos hcq] at h ⊢; exact h
                · rw [if_neg hcq] at h ⊢
                  by_cases hcb : c = '['
                  · rw [if_pos hcb] at h ⊢
                    cases hsw : skipWs cs0 with
                    | nil =>
                      simp only [hsw] at h
                      rw [parseElems_nil] at h; cases h
                    | cons d cs1 =>
                      simp only [hsw] at h ⊢
                      by_cases hd : d = ']'
                      · rw [if_pos hd] at h ⊢; exact h
                      · rw [if_neg hd] at h ⊢; exact ihE f2 _ r hf2 h
                  · rw [if_neg hcb] at h ⊢
                    by_cases hcc : c = '\x7b'
                    · rw [if_pos hcc] at h ⊢
                      cases hsw : skipWs cs0 with
                      | nil =>
                        simp only [hsw] at h
                        rw [parseMembers_nil] at h; cases h
                      | cons d cs1 =>
                        simp only [hsw] at h ⊢
                        by_cases hd : d = '\x7d'
                        · rw [if_pos hd] at h ⊢; exact h
                        · rw [if_neg hd] at h ⊢; exact ihM f2 _ r hf2 h
                    · rw [if_neg hcc] at h ⊢; exact h
    · intro f' cs r hle h
      cases f' with
      | zero => omega
      | succ f2 =>
        have hf2 : f ≤ f2 := by omega
        rw [parseElems] at h ⊢
        cases hv : parseValue f cs with
        | none => simp only [hv] at h; cases h
        | some r1 =>
          simp only [hv] at h
          simp only [ihV f2 cs r1 hf2 hv]
          cases hsw : skipWs r1 with
          | nil => simp only [hsw] at h; cases h
          | cons d cs1 =>
            simp only [hsw] at h ⊢
            by_cases hd : d = ','
            · rw [if_pos hd] at h ⊢; exact ihE f2 _ r hf2 h
            · rw [if_neg hd] at h ⊢
              by_cases hd2 : d = ']'
              · rw [if_pos hd2] at h ⊢; exact h
              · rw [if_neg hd2] at h; cases h
    · intro f' cs r hle h
      cases f' with
      | zero => omega
      | succ f2 =>
        have hf2 : f ≤ f2 := by omega
        cases cs with
        | nil => rw [parseMembers_nil] at h; cases h
        | cons c cs0 =>
          rw [parseMembers] at h ⊢
          by_cases hcq : c = '"'
          · rw [if_pos hcq] at h ⊢
            cases hsb : parseStringBody cs0 with
            | none => simp only [hsb] at h; cases h
            | some r1 =>
              simp only [hsb] at h ⊢
              cases hsw : skipWs r1 with
              | nil => simp only [hsw] at h; cases h
              | cons d cs1 =>
                simp only [hsw] at h ⊢
                by_cases hd : d = ':'
                · rw [if_pos hd] at h ⊢
                  cases hv : parseValue f (skipWs cs1) with
                  | none => simp only [hv] at h; cases h
                  | some r2 =>
                    simp only [hv] at h
                    simp only [ihV f2 _ r2 hf2 hv]
                    cases hsw2 : skipWs r2 with
                    | nil => simp only [hsw2] at h; cases h
                    | cons e cs2 =>
                      simp only [hsw2] at h ⊢
                      by_cases he : e = ','
                      · rw [if_pos he] at h ⊢; exact ihM f2 _ r hf2 h
                      · rw [if_neg he] at h ⊢
                        by_cases he2 : e = '\x7d'
                        · rw [if_pos he2] at h ⊢; exact h
                        · rw [if_neg he2] at h; cases h
                · rw [if_neg hd] at h; cases h
          · rw [if_neg hcq] at h; cases h

theorem parse_append : ∀ f : Nat,
    (∀ cs rest ys, parseValue f cs = some rest → restOk rest ys →
      parseValue f (cs ++ ys) = some (rest ++ ys)) ∧
    (∀ cs rest ys, parseElems f cs = some rest → restOk rest ys →
      parseElems f (cs ++ ys) = some (rest ++ ys)) ∧
    (∀ cs rest ys, parseMembers f cs = some rest → restOk rest ys →
      parseMembers f (cs ++ ys) = some (rest ++ ys)) := by
  intro f
  induction f with
  | zero =>
    refine ⟨?_, ?_, ?_⟩ <;> intro cs rest ys h hok <;>
      simp [parseValue, parseElems, parseMembers] at h
  | succ f ih =>
    obtain ⟨ihV, ihE, ihM⟩ := ih
    refine ⟨?_, ?_, ?_⟩
    · intro cs rest ys h hok
      cases cs with
      | nil => rw [parseValue_nil] at h; cases h
      | cons c cs0 =>
        rw [List.cons_append]
        rw [parseValue] at h ⊢
        by_cases hcn : c = 'n'
        · rw [if_pos hcn] at h ⊢; exact expectChars_append _ _ _ _ h
        · rw [if_neg hcn] at h ⊢
          by_cases hct : c = 't'
          · rw [if_pos hct] at h ⊢; exact expectChars_append _ _ _ _ h
          · rw [if_neg hct] at h ⊢
            by_cases hcf : c = 'f'
            · rw [if_pos hcf] at h ⊢; exact expectChars_append _ _ _ _ h
            · rw [if_neg hcf] at h ⊢
              by_cases hcq : c = '"'
              · rw [if_pos hcq] at h ⊢; exact parseStringBody_append _ _ _ h
              · rw [if_neg hcq] at h ⊢
                by_cases hcb : c = '['
                · rw [if_pos hcb] at h ⊢
                  cases hsw : skipWs cs0 with
                  | nil =>
                    simp only [hsw] at h
                    rw [parseElems_nil] at h; cases h
                  | cons d cs1 =>
                    simp only [hsw] at h
                    simp only [skipWs_append_cons cs0 ys d cs1 hsw]
                    by_cases hd : d = ']'
                    · rw [if_pos hd] at h ⊢
                      injection h with h; rw [← h]
                    · rw [if_neg hd] at h ⊢
                      exact ihE _ rest ys h hok
                · rw [if_neg hcb] at h ⊢
                  by_cases hcc : c = '\x7b'
                  · rw [if_pos hcc] at h ⊢
                    cases hsw : skipWs cs0 with
                    | nil =>
                      simp only [hsw] at h
                      rw [parseMembers_nil] at h; cases h
                    | cons d cs1 =>
                      simp only [hsw] at h
                      simp only [skipWs_append_cons cs0 ys d cs1 hsw]
                      by_cases hd : d = '\x7d'
                      · rw [if_pos hd] at h ⊢
                        injection h with h; rw [← h]
                      · rw [if_neg hd] at h ⊢
                        exact ihM _ rest ys h hok
                  · rw [if_neg hcc] at h ⊢
                    rw [← List.cons_append]
                    exact parseNumber_append _ _ _ h hok
    · intro cs rest ys h hok
      rw [parseElems] at h ⊢
      cases hv : parseValue f cs with
      | none => simp only [hv] at h; cases h
      | some r1 =>
        simp only [hv] at h
        cases hsw : skipWs r1 with
        | nil => simp only [hsw] at h; cases h
        | cons d cs1 =>
          simp only [hsw] at h
          by_cases hd : d = ','
          · rw [if_pos hd] at h
            have hok1 : restOk r1 ys :=
              restOk_of_skip_cons r1 ys d cs1 hsw (by rw [hd]; decide)
            simp only [ihV cs r1 ys hv hok1]
            simp only [skipWs_append_cons r1 ys d cs1 hsw]
            rw [if_pos hd]
            cases hsw2 : skipWs cs1 with
            | nil =>
              rw [hsw2, parseElems_nil] at h; cases h
            | cons q qs =>
              rw [hsw2] at h
              simp only [skipWs_append_cons cs1 ys q qs hsw2]
              exact ihE _ rest ys h hok
          · rw [if_neg hd] at h
            by_cases hd2 : d = ']'
            · rw [if_pos hd2] at h
              injection h with h
              have hok1 : restOk r1 ys :=
                restOk_of_skip_cons r1 ys d cs1 hsw (by rw [hd2]; decide)
              simp only [ihV cs r1 ys hv hok1]
              simp only [skipWs_append_cons r1 ys d cs1 hsw]
              rw [if_neg hd, if_pos hd2, ← h]
            · rw [if_neg hd2] at h; cases h
    · intro cs rest ys h hok
      cases cs with
      | nil => rw [parseMembers_nil] at h; cases h
      | cons c cs0 =>
        rw [List.cons_append]
        rw [parseMembers] at h ⊢
        by_cases hcq : c = '"'
        · rw [if_pos hcq] at h ⊢
          cases hsb : parseStringBody cs0 with
          | none => simp only [hsb] at h; cases h
          | some r1 =>
            simp only [hsb] at h
            simp only [parseStringBody_append cs0 r1 ys hsb]
            cases hsw : skipWs r1 with
            | nil => simp only [hsw] at h; cases h
            | cons d cs1 =>
              simp only [hsw] at h
              simp only [skipWs_append_cons r1 ys d cs1 hsw]
              by_cases hd : d = ':'
              · rw [if_pos hd] at h ⊢
                cases hv : parseValue f (skipWs cs1) with
                | none => simp only [hv] at h; cases h
                | some r2 =>
                  simp only [hv] at h
                  cases hsw2 : skipWs r2 with
                  | nil => simp only [hsw2] at h; cases h
                  | cons e cs2 =>
                    simp only [hsw2] at h
                    have hvne : skipWs cs1 ≠ [] := by
                      intro hnil
                      rw [hnil, parseValue_nil] at hv; cases hv
                    cases hsw3 : skipWs cs1 with
                    | nil => exact absurd hsw3 hvne
                    | cons q qs =>
                      rw [hsw3] at hv
                      simp only [skipWs_append_cons cs1 ys q qs hsw3]
                      by_cases he : e = ','
                      · rw [if_pos he] at h
                        have hok2 : restOk r2 ys :=
                          restOk_of_skip_cons r2 ys e cs2 hsw2 (by rw [he]; decide)
                        have hv2 : parseValue f (q :: (qs ++ ys)) = some (r2 ++ ys) := by
                          have hx := ihV (q :: qs) r2 ys hv hok2
                          rwa [List.cons_append] at hx
                        simp only [hv2]
                        simp only [skipWs_append_cons r2 ys e cs2 hsw2]
                        rw [if_pos he]
                        cases hsw4 : skipWs cs2 with
                        | nil =>
                          rw [hsw4, parseMembers_nil] at h; cases h
                        | cons w ws =>
                          rw [hsw4] at h
                          simp only [skipWs_append_cons cs2 ys w ws hsw4]
                          exact ihM _ rest ys h hok
                      · rw [if_neg he] at h
                        by_cases he2 : e = '\x7d'
                        · rw [if_pos he2] at h
                          injection h with h
                          have hok2 : restOk r2 ys :=
                            restOk_of_skip_cons r2 ys e cs2 hsw2 (by rw [he2]; decide)
                          have hv2 : parseValue f (q :: (qs ++ ys)) = some (r2 ++ ys) := by
                            have hx := ihV (q :: qs) r2 ys hv hok2
                            rwa [List.cons_append] at hx
                          simp only [hv2]
                          simp only [skipWs_append_cons r2 ys e cs2 hsw2]
                          rw [if_neg he, if_pos he2, ← h]
                        · rw [if_neg he2] at h; cases h
              · rw [if_neg hd] at h; cases h
        · rw [if_neg hcq] at h; cases h

theorem joinCommaSp_single (a : String) : joinCommaSp [a] = a := rfl

theorem intercalate_go_append (s : String) : ∀ (l : List String) (a x : String),
    String.intercalate.go (a ++ x) s l = a ++ String.intercalate.go x s l := by
  intro l
  induction l with
  | nil => intro a x; rfl
  | cons b l ih =>
    intro a x
    have h1 : String.intercalate.go (a ++ x) s (b :: l) =
        String.intercalate.go (a ++ x ++ s ++ b) s l := rfl
    rw [h1, String.append_assoc, String.append_assoc, ih]
    have h2 : String.intercalate.go x s (b :: l) =
        String.intercalate.go (x ++ s ++ b) s l := rfl
    rw [h2, String.append_assoc]

theorem joinCommaSp_cons (a b : String) (l : List String) :
    joinCommaSp (a :: b :: l) = a ++ ", " ++ joinCommaSp (b :: l) := by
  have h1 : joinCommaSp (a :: b :: l) = String.intercalate.go (a ++ ", " ++ b) ", " l := rfl
  have h2 : joinCommaSp (b :: l) = String.intercalate.go b ", " l := rfl
  rw [h1, h2, String.append_assoc, intercalate_go_append ", " l a]
  rw [intercalate_go_append ", " l ", " b]
  rw [String.append_assoc]

theorem data_append (a b : String) : (a ++ b).data = a.data ++ b.data := rfl

theorem pairText_data (kv : String × String) :
    (pairText kv).data = '"' :: (kv.1.data ++ '"' :: ':' :: ' ' :: kv.2.data) := by
  simp [pairText, data_append]

theorem jc_data_append : ∀ (m : List (String × String)) (t : List Char),
    (joinCommaSp (m.map pairText)).data ++ t = membersCharsT m t := by
  intro m
  induction m with
  | nil => intro t; rfl
  | cons kv rest ih =>
    intro t
    cases rest with
    | nil =>
      simp only [List.map_cons, List.map_nil, joinCommaSp_single, membersCharsT, pairText_data]
      simp [List.append_assoc]
    | cons kv2 rest2 =>
      simp only [List.map_cons] at ih ⊢
      rw [joinCommaSp_cons]
      have hrw : membersCharsT (kv :: kv2 :: rest2) t =
          '"' :: (kv.1.data ++ '"' :: ':' :: ' ' :: (kv.2.data ++
            ',' :: ' ' :: membersCharsT (kv2 :: rest2) t)) := rfl
      rw [hrw]
      rw [data_append, data_append, pairText_data]
      have hcs : (", " : String).data = [',', ' '] := rfl
      rw [hcs]
      simp only [List.cons_append, List.append_assoc, List.nil_append]
      rw [ih t]

theorem membersFuel_le : ∀ (m : List (String × String)) (t : List Char),
    membersFuel m ≤ (membersCharsT m t).length := by
  intro m
  induction m with
  | nil => intro t; exact Nat.zero_le _
  | cons kv rest ih =>
    intro t
    cases rest with
    | nil =>
      have hmf : membersFuel [kv] = kv.2.length + 2 := rfl
      have hmc : membersCharsT [kv] t =
          '"' :: (kv.1.data ++ '"' :: ':' :: ' ' :: (kv.2.data ++ t)) := rfl
      rw [hmf, hmc]
      simp only [List.length_cons, List.length_append]
      have hl : kv.2.length = kv.2.data.length := rfl
      omega
    | cons kv2 rest2 =>
      have h2 := ih t
      have hmf : membersFuel (kv :: kv2 :: rest2) =
          kv.2.length + 2 + membersFuel (kv2 :: rest2) := rfl
      have hmc : membersCharsT (kv :: kv2 :: rest2) t =
          '"' :: (kv.1.data ++ '"' :: ':' :: ' ' :: (kv.2.data ++
            ',' :: ' ' :: membersCharsT (kv2 :: rest2) t)) := rfl
      rw [hmf, hmc]
      simp only [List.length_cons, List.length_append]
      have hl : kv.2.length = kv.2.data.length := rfl
      omega

theorem skipWs_cons_ws (c : Char) (cs : List Char) (h : isWsChar c = true) :
    skipWs (c :: cs) = skipWs cs := by
  simp [skipWs, List.dropWhile_cons, h]

theorem skipWs_cons_nws (c : Char) (cs : List Char) (h : isWsChar c = false) :
    skipWs (c :: cs) = c :: cs := by
  simp [skipWs, List.dropWhile_cons, h]

theorem psb_safe : ∀ (l : List Char),
    (∀ c ∈ l, ¬c = '"' ∧ ¬c = '\\' ∧ 0x20 ≤ c.toNat) →
    ∀ (t : List Char), parseStringBody (l ++ '"' :: t) = some t := by
  intro l
  induction l with
  | nil =>
    intro _ t
    rw [List.nil_append]
    unfold parseStringBody
    rw [if_pos rfl]
  | cons c l ih =>
    intro hsafe t
    obtain ⟨h1, h2, h3⟩ := hsafe c (List.mem_cons_self _ _)
    rw [List.cons_append]
    unfold parseStringBody
    rw [if_neg h1, if_neg h2, if_pos h3]
    exact ih (fun d hd => hsafe d (List.mem_cons_of_mem _ hd)) t

theorem safeKey_chars (k : String) (hk : safeKey k = true) :
    ∀ c ∈ k.data, ¬c = '"' ∧ ¬c = '\\' ∧ 0x20 ≤ c.toNat := by
  intro c hc
  have := List.all_eq_true.mp hk c hc
  simp only [Bool.and_eq_true, Bool.not_eq_true', decide_eq_false_iff_not,
    decide_eq_true_eq] at this
  exact ⟨this.1.1, this.1.2, this.2⟩

theorem valid_chunk (v : String) (hval : isValidJson v = true) (fl : Nat)
    (hfl : v.length + 1 ≤ fl) (Z : List Char) (hz : noExtHead Z) :
    ∃ R, parseValue fl (skipWs (v.data ++ Z)) = some R ∧ skipWs R = skipWs Z := by
  unfold isValidJson at hval
  simp only [String.toList] at hval
  cases hv : parseValue (v.length + 1) (skipWs v.data) with
  | none => rw [hv] at hval; cases hval
  | some r =>
    rw [hv] at hval
    dsimp only at hval
    have hr : skipWs r = [] := by
      cases hsr : skipWs r with
      | nil => rfl
      | cons a as => rw [hsr] at hval; simp [List.isEmpty] at hval
    cases hsv : skipWs v.data with
    | nil => rw [hsv, parseValue_nil] at hv; cases hv
    | cons q qs =>
      rw [hsv] at hv
      have hok : restOk r Z := restOk_of_skip_nil r Z hr hz
      have happ := (parse_append (v.length + 1)).1 (q :: qs) r Z hv hok
      have hmono := (parse_mono (v.length + 1)).1 fl ((q :: qs) ++ Z) (r ++ Z) hfl happ
      refine ⟨r ++ Z, ?_, skipWs_append_nil r Z hr⟩
      rw [skipWs_append_cons v.data Z q qs hsv, ← List.cons_append]
      exact hmono

theorem skipWs_membersCharsT (kv : String × String) (rest : List (String × String))
    (t : List Char) :
    skipWs (membersCharsT (kv :: rest) t) = membersCharsT (kv :: rest) t := by
  cases rest <;> exact skipWs_cons_nws '"' _ (by decide)

theorem membersParse : ∀ (m : List (String × String)),
    (∀ kv ∈ m, safeKey kv.1 = true) → (∀ kv ∈ m, isValidJson kv.2 = true) →
    m ≠ [] → ∀ fuel, membersFuel m ≤ fuel →
    ∀ outRest, parseMembers fuel (membersCharsT m ('\x7d' :: outRest)) = some outRest := by
  intro m
  induction m with
  | nil => intro _ _ hne; exact absurd rfl hne
  | cons kv rest ih =>
    intro hsafe hvalid _ fuel hfuel outRest
    have hks := safeKey_chars kv.1 (hsafe kv (List.mem_cons_self _ _))
    have hkv := hvalid kv (List.mem_cons_self _ _)
    cases fuel with
    | zero =>
      exfalso
      have hmf : membersFuel (kv :: rest) = kv.2.length + 2 + membersFuel rest := rfl
      omega
    | succ fl =>
      have hmf : membersFuel (kv :: rest) = kv.2.length + 2 + membersFuel rest := rfl
      cases rest with
      | nil =>
        have hmc : membersCharsT [kv] ('\x7d' :: outRest) =
            '"' :: (kv.1.data ++ '"' :: ':' :: ' ' :: (kv.2.data ++ '\x7d' :: outRest)) := rfl
        rw [hmc, parseMembers, if_pos rfl]
        simp only [psb_safe kv.1.data hks (':' :: ' ' :: (kv.2.data ++ '\x7d' :: outRest))]
        simp only [skipWs_cons_nws ':' (' ' :: (kv.2.data ++ '\x7d' :: outRest)) (by decide)]
        rw [if_pos trivial]
        simp only [skipWs_cons_ws ' ' (kv.2.data ++ '\x7d' :: outRest) (by decide)]
        obtain ⟨R, hR, hRs⟩ := valid_chunk kv.2 hkv fl (by omega) ('\x7d' :: outRest)
          (show numExt '\x7d' = false by decide)
        simp only [hR]
        simp only [hRs, skipWs_cons_nws '\x7d' outRest (by decide)]
        rw [if_neg (by decide), if_pos trivial]
      | cons kv2 rest2 =>
        have hmc : membersCharsT (kv :: kv2 :: rest2) ('\x7d' :: outRest) =
            '"' :: (kv.1.data ++ '"' :: ':' :: ' ' :: (kv.2.data ++
              ',' :: ' ' :: membersCharsT (kv2 :: rest2) ('\x7d' :: outRest))) := rfl
        have hmf2 : membersFuel (kv2 :: rest2) ≤ fl := by
          have h3 : membersFuel (kv :: kv2 :: rest2) =
              kv.2.length + 2 + membersFuel (kv2 :: rest2) := rfl
          omega
        rw [hmc, parseMembers, if_pos rfl]
        simp only [psb_safe kv.1.data hks (':' :: ' ' :: (kv.2.data ++
          ',' :: ' ' :: membersCharsT (kv2 :: rest2) ('\x7d' :: outRest)))]
        simp only [skipWs_cons_nws ':' (' ' :: (kv.2.data ++
          ',' :: ' ' :: membersCharsT (kv2 :: rest2) ('\x7d' :: outRest))) (by decide)]
        rw [if_pos trivial]
        simp only [skipWs_cons_ws ' ' (kv.2.data ++
          ',' :: ' ' :: membersCharsT (kv2 :: rest2) ('\x7d' :: outRest)) (by decide)]
        obtain ⟨R, hR, hRs⟩ := valid_chunk kv.2 hkv fl (by omega)
          (',' :: ' ' :: membersCharsT (kv2 :: rest2) ('\x7d' :: outRest))
          (show numExt ',' = false by decide)
        simp only [hR]
        simp only [hRs, skipWs_cons_nws ','
          (' ' :: membersCharsT (kv2 :: rest2) ('\x7d' :: outRest)) (by decide)]
        rw [if_pos trivial]
        simp only [skipWs_cons_ws ' '
          (membersCharsT (kv2 :: rest2) ('\x7d' :: outRest)) (by decide)]
        rw [skipWs_membersCharsT kv2 rest2 ('\x7d' :: outRest)]
        exact ih (fun w hw => hsafe w (List.mem_cons_of_mem _ hw))
          (fun w hw => hvalid w (List.mem_cons_of_mem _ hw))
          (List.cons_ne_nil _ _) fl hmf2 outRest

theorem serializeResponse_strings (m : List (String × String)) :
    serializeResponse (m.map fun kv => (kv.1, some kv.2)) =
      "\x7b" ++ joinCommaSp (m.map pairText) ++ "\x7d" := by
  simp only [serializeResponse, List.map_map]
  rfl

theorem serializeResponse_strings_data (m : List (String × String)) :
    (serializeResponse (m.map fun kv => (kv.1, some kv.2))).data =
      '\x7b' :: membersCharsT m ('\x7d' :: []) := by
  rw [serializeResponse_strings]
  rw [data_append, data_append]
  have h1 : ("\x7b" : String).data = ['\x7b'] := rfl
  have h2 : ("\x7d" : String).data = ['\x7d'] := rfl
  rw [h1, h2]
  simp only [List.cons_append, List.nil_append]
  rw [jc_data_append m]

theorem serializeResponse_strings_length (m : List (String × String)) :
    (serializeResponse (m.map fun kv => (kv.1, some kv.2))).length =
      (membersCharsT m ('\x7d' :: [])).length + 1 := by
  show (serializeResponse (m.map fun kv => (kv.1, some kv.2))).data.length = _
  rw [serializeResponse_strings_data]
  rw [List.length_cons]

theorem membersCharsT_cons (kv : String × String) (rest : List (String × String))
    (t : List Char) : ∃ X, membersCharsT (kv :: rest) t = '"' :: X := by
  cases rest <;> exact ⟨_, rfl⟩

theorem parseValue_obj (fuel : Nat) (cs0 : List Char) (d : Char) (cs1 : List Char)
    (hsw : skipWs cs0 = d :: cs1) (hd : ¬d = '\x7d') :
    parseValue (fuel + 1) ('\x7b' :: cs0) = parseMembers fuel (d :: cs1) := by
  rw [parseValue, if_neg (by decide), if_neg (by decide), if_neg (by decide),
    if_neg (by decide), if_neg (by decide), if_pos rfl]
  simp only [hsw]
  rw [if_neg hd]

set_option maxHeartbeats 1000000 in
theorem serializeResponse_strings_valid (m : List (String × String)) (hne : m ≠ [])
    (hkeys : ∀ kv ∈ m, safeKey kv.1 = true)
    (hvals : ∀ kv ∈ m, isValidJson kv.2 = true) :
    isValidJson (serializeResponse (m.map fun kv => (kv.1, some kv.2))) = true := by
  obtain ⟨kv, rest, rfl⟩ : ∃ kv rest, m = kv :: rest := by
    cases m with
    | nil => exact absurd rfl hne
    | cons kv rest => exact ⟨kv, rest, rfl⟩
  unfold isValidJson
  simp only [String.toList]
  rw [serializeResponse_strings_data]
  rw [skipWs_cons_nws '\x7b' _ (by decide)]
  obtain ⟨X, hX⟩ := membersCharsT_cons kv rest ('\x7d' :: [])
  rw [parseValue_obj (serializeResponse ((kv :: rest).map fun kv => (kv.1, some kv.2))).length
    (membersCharsT (kv :: rest) ('\x7d' :: [])) '"' X
    (by rw [skipWs_membersCharsT]; exact hX) (by decide)]
  rw [← hX]
  have hfuel : membersFuel (kv :: rest) ≤
      (serializeResponse ((kv :: rest).map fun kv => (kv.1, some kv.2))).length := by
    have h1 := membersFuel_le (kv :: rest) ('\x7d' :: [])
    have h2 := serializeResponse_strings_length (kv :: rest)
    omega
  rw [membersParse (kv :: rest) hkeys hvals (List.cons_ne_nil _ _)
    (serializeResponse ((kv :: rest).map fun kv => (kv.1, some kv.2))).length hfuel []]
  rfl

theorem chunk_sub (l Y : List Char) : l <:+: l ++ Y := ⟨[], Y, rfl⟩

theorem sub_cons (a : Char) (l Y : List Char) (h : l <:+: Y) : l <:+: a :: Y := by
  obtain ⟨s, t, rfl⟩ := h
  exact ⟨a :: s, t, rfl⟩

theorem sub_append_left (X l Y : List Char) (h : l <:+: Y) : l <:+: X ++ Y := by
  obtain ⟨s, t, rfl⟩ := h
  exact ⟨X ++ s, t, by simp [List.append_assoc]⟩

theorem mem_sub_mcT : ∀ (m : List (String × String)) (t : List Char) (kv : String × String),
    kv ∈ m → kv.2.data <:+: membersCharsT m t := by
  intro m
  induction m with
  | nil => intro t kv hkv; cases hkv
  | cons kv0 rest ih =>
    intro t kv hkv
    rcases List.mem_cons.mp hkv with rfl | hmem
    · cases rest <;>
        exact sub_cons '"' _ _ (sub_append_left kv.1.data _ _ (sub_cons '"' _ _
          (sub_cons ':' _ _ (sub_cons ' ' _ _ (chunk_sub kv.2.data _)))))
    · cases rest with
      | nil => cases hmem
      | cons kv2 rest2 =>
        exact sub_cons '"' _ _ (sub_append_left kv0.1.data _ _ (sub_cons '"' _ _
          (sub_cons ':' _ _ (sub_cons ' ' _ _ (sub_append_left kv0.2.data _ _
            (sub_cons ',' _ _ (sub_cons ' ' _ _ (ih t kv hmem))))))))

/-- Claim C5 (amended): for every non-empty response map whose values are
syntactically valid JSON and whose keys need no string escaping, the
serializer returns `\x7b` followed by the comma-joined `"key": value`
pairs followed by `\x7d`; this output is syntactically valid JSON; and
every value appears verbatim — unquoted and unescaped — as a contiguous
run of the output. -/
theorem claim_C5_amended (m : List (String × String)) (hne : m ≠ [])
    (hkeys : ∀ kv ∈ m, safeKey kv.1 = true)
    (hvals : ∀ kv ∈ m, isValidJson kv.2 = true) :
    serializeResponse (m.map fun kv => (kv.1, some kv.2)) =
      "\x7b" ++ joinCommaSp (m.map pairText) ++ "\x7d" ∧
    isValidJson (serializeResponse (m.map fun kv => (kv.1, some kv.2))) = true ∧
    ∀ kv ∈ m, kv.2.toList <:+:
      (serializeResponse (m.map fun kv => (kv.1, some kv.2))).toList := by
  refine ⟨serializeResponse_strings m, serializeResponse_strings_valid m hne hkeys hvals, ?_⟩
  intro kv hkv
  show kv.2.data <:+: (serializeResponse (m.map fun kv => (kv.1, some kv.2))).data
  rw [serializeResponse_strings_data]
  exact sub_cons '\x7b' _ _ (mem_sub_mcT m ('\x7d' :: []) kv hkv)

theorem claim_C5_amended_witness :
    serializeResponse (([("a", "1")] : List (String × String)).map fun kv => (kv.1, some kv.2)) =
      "\x7b" ++ joinCommaSp (([("a", "1")] : List (String × String)).map pairText) ++ "\x7d" ∧
    isValidJson (serializeResponse
      (([("a", "1")] : List (String × String)).map fun kv => (kv.1, some kv.2))) = true ∧
    ∀ kv ∈ ([("a", "1")] : List (String × String)), kv.2.toList <:+:
      (serializeResponse
        (([("a", "1")] : List (String × String)).map fun kv => (kv.1, some kv.2))).toList :=
  claim_C5_amended [("a", "1")] (by decide) (by decide) (by decide)

end MempoolWs
